import Mathlib

/-!
Verification development for the snippet-integration subsystem of the
Self-Updating-Agent repository: a shallow embedding of
`code_exec.py` (CodeExecutionManager) and `Snippet_maching.py`
(SnippetMatcher / SnippetUpdater), with theorems about the embedded
definitions.

Modelling conventions:
* Python strings are modelled as `List Char` (`Str`); Python's substring
  test `a in b` is contiguous-sublist containment `<:+:`.
* Python `float` arithmetic is modelled exactly over `ℚ`.
* `ast.parse` and `ast.walk` are host functionality: a parse environment
  maps a source string to `none` (a `SyntaxError`) or to the list of
  walked AST nodes, abstracted to the node shapes the code inspects.
* Fallible Python code returns `Except PyErr`; an uncaught Python
  exception is an `Except.error`.
-/

open List

abbrev Str := List Char

/-- Python whitespace (the characters stripped by `str.strip` and used by
`str.split`): space, tab, newline, carriage return, vertical tab, form feed. -/
def isWS (c : Char) : Bool :=
  c = ' ' ∨ c = '\t' ∨ c = '\n' ∨ c = '\r' ∨ c = '\x0b' ∨ c = '\x0c'

/-- Python `str.lstrip()`. -/
def lstrip (s : Str) : Str := s.dropWhile isWS

/-- Python `str.rstrip()`. -/
def rstrip (s : Str) : Str := (s.reverse.dropWhile isWS).reverse

/-- Python `str.strip()`. -/
def strip (s : Str) : Str := lstrip (rstrip s)

/-- Worker for `splitlines`: `cur` holds the current (reversed) line. -/
def splitlinesGo : Str → Str → List Str
  | [], cur => [cur.reverse]
  | c :: cs, cur =>
      if c = '\n' then
        match cs with
        | [] => [cur.reverse]
        | _ :: _ => cur.reverse :: splitlinesGo cs []
      else splitlinesGo cs (c :: cur)

/-- Python `str.splitlines()` restricted to `'\n'` terminators (the only
line separator appearing in this code base): splits into lines, with no
trailing empty line for a trailing newline, and `[]` for the empty string. -/
def splitlines (s : Str) : List Str :=
  if s = [] then [] else splitlinesGo s []

/-- Python `str.split()` with no argument: whitespace-run tokenization,
dropping empty tokens. -/
def tokens (s : Str) : List Str :=
  (List.splitOnP isWS s).filter (fun t => !t.isEmpty)

/-- The distinct tokens of a string: Python `set(s.split())`. -/
def tokSet (s : Str) : Finset Str := (tokens s).toFinset

/-- Python `"\n".join(lines)`. -/
def joinLines (ls : List Str) : Str := List.intercalate ['\n'] ls

/-- Python `l[-n:]`: the last `min n (length l)` elements. -/
def lastN (n : Nat) (l : List Str) : List Str := l.drop (l.length - n)

/-! ## The Python AST abstraction

`ast.walk` yields every node of the parse tree.  The safety analyzer and
match scorer only inspect the node shapes below; all other nodes are
`otherNode`.  A parse environment (`PyEnv`) maps source text to its walk
list, or `none` for a `SyntaxError`. -/

inductive PyNode where
  /-- the `ast.Module` root -/
  | module : PyNode
  /-- an `ast.Name` node with its `id` -/
  | nameRef : Str → PyNode
  /-- an `ast.Import` node with the `alias.name` of each of its `names` -/
  | importPlain : List Str → PyNode
  /-- an `ast.ImportFrom` node with its `module` attribute
  (`none` for a relative import such as `from . import x`) -/
  | importFromStmt : Option Str → PyNode
  /-- an `ast.Delete` node -/
  | delStmt : PyNode
  /-- an `ast.Call` node whose `func` is an `ast.Name` with this `id`
  (that `ast.Name` also occurs separately in the walk as `nameRef`) -/
  | callName : Str → PyNode
  /-- an `ast.Attribute` node with its `attr` -/
  | attrAccess : Str → PyNode
  /-- any other AST node -/
  | otherNode : PyNode
deriving DecidableEq, Repr

/-- A parse environment: `parse s = none` models `ast.parse(s)` raising
`SyntaxError`; `parse s = some nodes` models the `ast.walk` node list of
the parsed tree (so `nodes.length = len(list(ast.walk(tree)))`). -/
structure PyEnv where
  parse : Str → Option (List PyNode)

/-- The identifiers referenced by `ast.Name` nodes of a walk list:
`{node.id for node in ast.walk(tree) if isinstance(node, ast.Name)}`. -/
def namesOf (nodes : List PyNode) : Finset Str :=
  (nodes.filterMap (fun n =>
    match n with
    | .nameRef id => some id
    | _ => none)).toFinset

/-! ## CodeExecutionManager (`code_exec.py`) -/

/-- `self.safe_builtins` from `CodeExecutionManager.__init__`. -/
def safe_builtins : List Str :=
  ["abs".toList, "all".toList, "any".toList, "ascii".toList, "bin".toList,
   "bool".toList, "bytes".toList, "chr".toList, "dict".toList, "dir".toList,
   "divmod".toList, "enumerate".toList, "filter".toList, "float".toList,
   "format".toList, "frozenset".toList, "hash".toList, "hex".toList,
   "int".toList, "isinstance".toList, "issubclass".toList, "len".toList,
   "list".toList, "map".toList, "max".toList, "min".toList, "next".toList,
   "oct".toList, "ord".toList, "pow".toList, "print".toList, "range".toList,
   "repr".toList, "reversed".toList, "round".toList, "set".toList,
   "slice".toList, "sorted".toList, "str".toList, "sum".toList,
   "tuple".toList, "type".toList, "zip".toList]

/-- `self.allowed_modules` from `CodeExecutionManager.__init__`. -/
def allowed_modules : List Str :=
  ["math".toList, "random".toList, "datetime".toList, "collections".toList,
   "itertools".toList, "functools".toList, "operator".toList,
   "string".toList, "re".toList, "json".toList, "copy".toList]

/-- Python `name.split('.')[0]`: the top-level module of a dotted name. -/
def topModule (name : Str) : Str := name.takeWhile (· ≠ '.')

/-- Python exceptions and `ValueError`/`FileNotFoundError` variants raised
by the embedded code. -/
inductive PyErr where
  /-- `ValueError(f"Folder not found: {folder}")` -/
  | folderNotFound : PyErr
  /-- `ValueError("Snippet cannot be empty")` -/
  | emptySnippet : PyErr
  /-- `ValueError(f"Invalid Python syntax in snippet: ...")` -/
  | snippetSyntaxError : PyErr
  /-- `FileNotFoundError(f"The file {file_path} does not exist.")` -/
  | fileNotFoundError : PyErr
  /-- `shutil.SameFileError` from `shutil.copy2(p, p)` -/
  | sameFileError : PyErr
  /-- `AttributeError: 'NoneType' object has no attribute 'split'`
  from `node.module.split('.')` when `node.module is None` -/
  | attributeErrorNoneSplit : PyErr
deriving DecidableEq, Repr

/-- Outcome of the per-node checks in `_is_safe_code`'s walk loop. -/
inductive NodeRes where
  | cont : NodeRes
  | reject : NodeRes
  | raiseAttr : NodeRes
deriving DecidableEq, Repr

/-- The body of the `for node in ast.walk(tree)` loop of
`CodeExecutionManager._is_safe_code`, for one node.  `dirB` models the
host-dependent set `dir(builtins)`. -/
def nodeVerdict (dirB : List Str) : PyNode → NodeRes
  | .nameRef id =>
      -- if isinstance(node, ast.Name) and node.id not in self.safe_builtins:
      --     if node.id in dir(builtins): return False
      if id ∉ safe_builtins ∧ id ∈ dirB then .reject else .cont
  | .importPlain als =>
      -- for alias in node.names:
      --     if alias.name.split('.')[0] not in self.allowed_modules: return False
      if als.any (fun a => decide (topModule a ∉ allowed_modules)) then .reject
      else .cont
  | .importFromStmt none =>
      -- node.module is None: node.module.split('.') raises AttributeError
      .raiseAttr
  | .importFromStmt (some m) =>
      -- if node.module.split('.')[0] not in self.allowed_modules: return False
      if topModule m ∉ allowed_modules then .reject else .cont
  | .delStmt => .reject
  | .callName id =>
      -- if node.func.id in {'eval', 'exec'}: return False
      if id = "eval".toList ∨ id = "exec".toList then .reject else .cont
  | .attrAccess attr =>
      -- if node.attr.startswith('__'): return False
      if "__".toList <+: attr then .reject else .cont
  | _ => .cont

/-- The walk loop of `_is_safe_code`: first deciding node wins; a clean
walk returns `True`. -/
def walkVerdict (dirB : List Str) : List PyNode → Except PyErr Bool
  | [] => .ok true
  | n :: ns =>
      match nodeVerdict dirB n with
      | .raiseAttr => .error .attributeErrorNoneSplit
      | .reject => .ok false
      | .cont => walkVerdict dirB ns

/-- `CodeExecutionManager._is_safe_code`, over the parse result of the
code (`none` = `SyntaxError`, caught and mapped to `False`). -/
def is_safe_code (dirB : List Str) (parsed : Option (List PyNode)) :
    Except PyErr Bool :=
  match parsed with
  | none => .ok false
  | some nodes => walkVerdict dirB nodes

/-- `'Code contains unsafe operations or imports'` -/
def rejectMsg : Str := "Code contains unsafe operations or imports".toList

/-- `f'Execution timed out after {self.timeout} seconds'` -/
def timeoutMsg (t : Nat) : Str :=
  "Execution timed out after ".toList ++ (toString t).toList ++
    " seconds".toList

/-- The dictionary the worker thread puts on `self.result_queue`
(the `local_vars` entry is dropped: it never reaches a claim). -/
structure WorkerOutcome where
  success : Bool
  output : Str
  error : Str
deriving DecidableEq, Repr

/-- The runtime environment of one `execute_code` call, abstracting the
worker thread and the wall clock:
* `workerAlive`: whether `execution_thread.is_alive()` holds after
  `join(timeout=self.timeout)` returns;
* `captured`: `output_buffer.getvalue()` at that moment;
* `worker`: the result the worker placed on the queue (meaningful only
  when the worker finished in time);
* `elapsed`: the measured `time.time() - start_time`. -/
structure ExecEnv where
  workerAlive : Bool
  captured : Str
  worker : WorkerOutcome
  elapsed : ℚ
deriving DecidableEq, Repr

/-- The result dictionary of `execute_code`:
`{success, output, error, execution_time}`. -/
structure ExecResult where
  success : Bool
  output : Str
  error : Str
  execution_time : ℚ
deriving DecidableEq, Repr

/-- Python `round(q, 3)` (up to Python's banker's rounding on exact
half-thousandths, which no claim depends on). -/
def round3 (q : ℚ) : ℚ := (round (q * 1000) : ℤ) / 1000

/-- `CodeExecutionManager.execute_code` over the parse result of the code
and an execution environment.  `timeout` is `self.timeout`. -/
def execute_code (dirB : List Str) (timeout : Nat)
    (parsed : Option (List PyNode)) (env : ExecEnv) :
    Except PyErr ExecResult :=
  match is_safe_code dirB parsed with
  | .error e => .error e
  | .ok false =>
      .ok { success := false, output := [], error := rejectMsg,
            execution_time := 0 }
  | .ok true =>
      if env.workerAlive then
        .ok { success := false, output := env.captured,
              error := timeoutMsg timeout,
              execution_time := (timeout : ℚ) }
      else
        .ok { success := env.worker.success, output := env.worker.output,
              error := env.worker.error,
              execution_time := round3 env.elapsed }

/-! ## SnippetMatcher (`Snippet_maching.py`) -/

/-- `SnippetMatcher._first_line_match` loop over the target's lines:
first matching line decides (`== → 1.0`, substring `→ 0.8`). -/
def flmGo (fl : Str) : List Str → ℚ
  | [] => 0
  | l :: ls =>
      if strip l = fl then 1
      else if fl <:+: strip l then 4/5
      else flmGo fl ls

/-- `SnippetMatcher._first_line_match(target_code, first_line)`. -/
def first_line_match (target_code : Str) (first_line : Str) : ℚ :=
  flmGo first_line (splitlines target_code)

/-- One window test of `_end_line_match`:
`all(last_lines[j].strip() in target_lines[i+j].strip() for j ...)`. -/
def elmAll (tl ll : List Str) (i : Nat) : Bool :=
  (List.range ll.length).all
    (fun j => decide (strip (ll.getD j []) <:+: strip (tl.getD (i + j) [])))

/-- `any(last_lines[j].strip() in target_lines[i+j].strip() for j ...)`. -/
def elmAny (tl ll : List Str) (i : Nat) : Bool :=
  (List.range ll.length).any
    (fun j => decide (strip (ll.getD j []) <:+: strip (tl.getD (i + j) [])))

/-- The window loop of `_end_line_match`: the first window with a full
match returns `1.0`, the first with a partial match returns `0.8`. -/
def elmGo (tl ll : List Str) : List Nat → ℚ
  | [] => 0
  | i :: is =>
      if elmAll tl ll i then 1
      else if elmAny tl ll i then 4/5
      else elmGo tl ll is

/-- `SnippetMatcher._end_line_match(target_code, last_lines)`.  The window
start indices are `range(len(target_lines) - len(last_lines) + 1)`, empty
when that bound is not positive. -/
def end_line_match (target_code : Str) (last_lines : List Str) : ℚ :=
  let tl := splitlines target_code
  let n := if last_lines.length ≤ tl.length
           then tl.length - last_lines.length + 1 else 0
  elmGo tl last_lines (List.range n)

/-- `SnippetMatcher._string_similarity(target_code, snippet)`.
Division is `ℚ` division; Python raises `ZeroDivisionError` when
`snippet.split()` is empty and the snippet is not a substring of the
target, a case excluded by the callers (the snippet is checked to have a
non-empty `strip()` first) and by the theorems' hypotheses. -/
def string_similarity (target_code : Str) (snippet : Str) : ℚ :=
  if snippet <:+: target_code then 1
  else ((tokSet snippet ∩ tokSet target_code).card : ℚ) / (tokSet snippet).card

/-- `SnippetMatcher._ast_similarity(target_code, snippet)`: the ratio of
walked-node counts, `0.0` if either side fails to parse. -/
def ast_similarity (env : PyEnv) (target_code : Str) (snippet : Str) : ℚ :=
  match env.parse target_code, env.parse snippet with
  | some tt, some ts => (ts.length : ℚ) / (tt.length : ℚ)
  | _, _ => 0

/-- `SnippetMatcher._keyword_match(target_code, snippet)`. -/
def keyword_match (env : PyEnv) (target_code : Str) (snippet : Str) : ℚ :=
  match env.parse snippet, env.parse target_code with
  | some ts, some tt =>
      let sk := namesOf ts
      if sk = ∅ then 0
      else ((sk ∩ namesOf tt).card : ℚ) / sk.card
  | _, _ => 0

/-- The `scores` dictionary of `_calculate_matching_scores`. -/
structure MatchScores where
  first_line_match : ℚ
  string_match : ℚ
  ast_similarity : ℚ
  keyword_match : ℚ
  end_line_match : ℚ
deriving DecidableEq, Repr

/-- `SnippetMatcher._calculate_matching_scores(target_code, snippet)`.
Python indexes `snippet.splitlines()[0]` (an `IndexError` on an empty
snippet, excluded by the caller); the embedding uses `headI`. -/
def calculate_matching_scores (env : PyEnv) (target_code snippet : Str) :
    MatchScores :=
  { first_line_match :=
      first_line_match target_code (strip ((splitlines snippet).headI)),
    string_match := string_similarity target_code snippet,
    ast_similarity := ast_similarity env target_code snippet,
    keyword_match := keyword_match env target_code snippet,
    end_line_match :=
      end_line_match target_code (lastN 3 (splitlines snippet)) }

/-- `SnippetMatcher._calculate_confidence_score(scores)`: the fixed-weight
sum with weights 0.3, 0.2, 0.2, 0.1, 0.2. -/
def calculate_confidence_score (s : MatchScores) : ℚ :=
  3/10 * s.first_line_match + 1/5 * s.string_match +
    1/5 * s.ast_similarity + 1/10 * s.keyword_match +
    1/5 * s.end_line_match

/-- `match_score` of `_find_best_match` at first-line occurrence `i`:
`1` for the first line, plus one per subsequent snippet line contained in
the corresponding target line, plus the end-line signal `elq`. -/
def fbmScore (tl sl : List Str) (elq : ℚ) (i : Nat) : ℚ :=
  1 + ((List.range' 1 (min sl.length (tl.length - i) - 1)).countP
        (fun j => decide (strip (sl.getD j []) <:+: strip (tl.getD (i + j) []))) : ℚ)
    + elq

/-- One iteration of the `for i, line in enumerate(lines)` loop of
`_find_best_match`, carrying `(best_match_score, (best_start, best_end))`. -/
def fbmStep (tl sl : List Str) (fl : Str) (elq : ℚ)
    (acc : ℚ × Int × Int) (i : Nat) : ℚ × Int × Int :=
  if fl <:+: strip (tl.getD i []) then
    let ms := fbmScore tl sl elq i
    if acc.1 < ms then (ms, ((i : Int) + 1, (i : Int) + sl.length)) else acc
  else acc

/-- `SnippetMatcher._find_best_match(target_code, snippet)`: the best
`(start, end)` 1-based line bounds, `(-1, -1)` if the snippet's trimmed
first line occurs in no target line. -/
def find_best_match (target_code snippet : Str) : Int × Int :=
  let tl := splitlines target_code
  let sl := splitlines snippet
  let fl := strip (sl.headI)
  let elq := end_line_match target_code (lastN 3 sl)
  ((List.range tl.length).foldl (fbmStep tl sl fl elq) (0, -1, -1)).2

/-- Invariant of the `_find_best_match` fold: the accumulator is either
the initial `(0, (-1, -1))` or holds a score of at least 1 with bounds
`(i+1, i+len(snippet_lines))` for some index `i`. -/
def FbmInv (sl : List Str) (acc : ℚ × Int × Int) : Prop :=
  acc = (0, (-1, -1)) ∨
    (1 ≤ acc.1 ∧ ∃ i : ℕ, acc.2 = ((i : Int) + 1, (i : Int) + sl.length))

/-- One `(file_path, confidence, matched_code, start_line, end_line)`
tuple collected by `check_folder_for_snippet`. -/
structure Placement where
  file : Str
  conf : ℚ
  matched : Str
  start_line : Int
  end_line : Int
deriving DecidableEq, Repr

/-- Insert into a descending-by-confidence list, after any element of
equal confidence (the behaviour of Python's stable
`sorted(..., key=lambda x: x[1], reverse=True)`). -/
def insertDesc (x : Placement) : List Placement → List Placement
  | [] => [x]
  | y :: ys => if y.conf < x.conf then x :: y :: ys else y :: insertDesc x ys

/-- Stable descending sort by confidence, modelling
`sorted(placements, key=lambda x: x[1], reverse=True)`. -/
def sortByConfDesc (l : List Placement) : List Placement :=
  l.foldl (fun acc x => insertDesc x acc) []

/-- Python list slicing `l[i:j]` (negative indices count from the end,
out-of-range indices clamp). -/
def pySlice (l : List Str) (i j : Int) : List Str :=
  let idx : Int → Nat := fun k =>
    if k < 0 then ((l.length : Int) + k).toNat else min k.toNat l.length
  (l.take (idx j)).drop (idx i)

/-- `os.path.join(folder, f)` for POSIX paths, as used to build
`python_files`. -/
def joinPath (a b : Str) : Str :=
  if b.head? = some '/' then b
  else if a = [] ∨ a.getLast? = some '/' then a ++ b
  else a ++ '/' :: b

/-- One directory entry of the scanned folder: the file name from
`os.listdir` order and its content (`none` models a read/decode error,
which the per-file `try/except` logs and skips). -/
structure FileEntry where
  name : Str
  content : Option Str
deriving DecidableEq, Repr

/-- The body of the `for py_file in python_files` loop of
`check_folder_for_snippet` for one file: `none` means the file
contributes no placement (read error, blank file, confidence at or below
0.3, or no first-line match).  Nothing in this body raises for a snippet
with non-empty `strip()` (the only snippets that reach it), so the
enclosing `try/except` is the `none` of the read-error case. -/
def processFile (env : PyEnv) (snippet : Str) (path : Str)
    (content : Option Str) : Option Placement :=
  match content with
  | none => none
  | some target_code =>
    if strip target_code = [] then none
    else
      let scores := calculate_matching_scores env target_code snippet
      let confidence := calculate_confidence_score scores
      if 3/10 < confidence then
        let m := find_best_match target_code snippet
        let snippet_last_5 :=
          joinLines (lastN 5 (splitlines snippet))
        let mEnd := find_best_match target_code snippet_last_5
        let match_end := if m.2 < mEnd.2 then mEnd.2 else m.2
        let lines := splitlines target_code
        let matched_code := joinLines (pySlice lines (m.1 - 1) match_end)
        if m.1 ≠ -1 then
          some { file := path, conf := confidence, matched := matched_code,
                 start_line := m.1, end_line := match_end }
        else none
      else none

/-- The `placements` list accumulated over the `.py` files of the folder,
in directory-listing order. -/
def collectPlacements (env : PyEnv) (folderPath : Str)
    (files : List FileEntry) (snippet : Str) : List Placement :=
  (files.filter (fun f => decide (".py".toList <:+ f.name))).filterMap
    (fun f => processFile env snippet (joinPath folderPath f.name) f.content)

/-- `SnippetMatcher.check_folder_for_snippet(folder, snippet)`.
`present` models `os.path.exists(folder)`; `files` is the directory
listing.  Returns the top 2 placements of a stable descending sort by
confidence, or raises `ValueError` for a missing folder, an empty
snippet, or a snippet that fails to parse. -/
def check_folder_for_snippet (env : PyEnv) (present : Bool)
    (files : List FileEntry) (folderPath snippet : Str) :
    Except PyErr (List Placement) :=
  if present = false then .error .folderNotFound
  else if strip snippet = [] then .error .emptySnippet
  else
    match env.parse snippet with
    | none => .error .snippetSyntaxError
    | some _ =>
        .ok ((sortByConfDesc
                (collectPlacements env folderPath files snippet)).take 2)

/-! ## SnippetUpdater (`Snippet_maching.py`) -/

/-- The per-line body of the `for line in lines` loop of
`SnippetUpdater._adjust_snippet_indentation`: blank lines pass through;
otherwise `len(snippet_indentation)` leading characters are dropped when
the line is longer (else the line is fully left-stripped) and the target
indentation is prefixed. -/
def adjustLine (target_indentation snippet_indentation : Str)
    (line : Str) : Str :=
  if strip line = [] then line
  else if snippet_indentation.length < line.length then
    target_indentation ++ line.drop snippet_indentation.length
  else target_indentation ++ lstrip line

/-- `SnippetUpdater._adjust_snippet_indentation(snippet,
target_indentation, snippet_indentation)`.  (The computed `indent_diff`
of the source is unused there and omitted.) -/
def adjust_snippet_indentation (snippet target_indentation
    snippet_indentation : Str) : Str :=
  joinLines ((splitlines snippet).map
    (adjustLine target_indentation snippet_indentation))

/-- A file's state: its text content plus the metadata that
`shutil.copy2` preserves (permission bits etc.), abstracted to a number.
An in-place `open(path, 'w')` rewrite keeps those bits. -/
structure FileData where
  content : Str
  meta : Nat
deriving DecidableEq, Repr

/-- A filesystem, as an association list from paths to file data
(first binding wins). -/
def FS := List (Str × FileData)

def lookupFS : FS → Str → Option FileData
  | [], _ => none
  | (q, d) :: fs, p => if q = p then some d else lookupFS fs p

def setFS (fs : FS) (p : Str) (d : FileData) : FS := (p, d) :: fs

/-- A destructive filesystem operation, recorded in order so that the
backup-before-overwrite ordering is part of the function's result. -/
inductive FsOp where
  | copy2 : Str → Str → FsOp
  | writeFile : Str → Str → FsOp
deriving DecidableEq, Repr

/-- The root part of `os.path.splitext(p)` (POSIX rules: the extension
starts at the last dot of the basename unless every earlier basename
character is a dot). -/
def splitextRoot (p : Str) : Str :=
  let sepIdx : Int := match (p.reverse.findIdx? (· = '/')) with
    | none => -1
    | some i => (p.length : Int) - 1 - i
  let dotIdx : Int := match (p.reverse.findIdx? (· = '.')) with
    | none => -1
    | some i => (p.length : Int) - 1 - i
  if sepIdx < dotIdx ∧
      (List.range p.length).any (fun k =>
        decide (sepIdx < (k : Int) ∧ (k : Int) < dotIdx ∧
          p.getD k ' ' ≠ '.')) then
    p.take dotIdx.toNat
  else p

/-- `SnippetUpdater.backup_and_write_code(file_path, updated_code)`:
requires the target to exist, copies it (content and metadata) to
`splitext(file_path)[0] + ".old"`, overwrites the target, and returns
the backup path together with the ordered operation trace.
`shutil.copy2` onto the same path raises `shutil.SameFileError`
(hard-link aliasing between distinct paths is outside the model). -/
def backup_and_write_code (fs : FS) (file_path : Str)
    (updated_code : Str) : FS × Except PyErr (Str × List FsOp) :=
  match lookupFS fs file_path with
  | none => (fs, .error .fileNotFoundError)
  | some fd =>
      let backup_path := splitextRoot file_path ++ ".old".toList
      if backup_path = file_path then (fs, .error .sameFileError)
      else
        let fs1 := setFS fs backup_path fd
        let fs2 := setFS fs1 file_path { content := updated_code,
                                         meta := fd.meta }
        (fs2, .ok (backup_path,
          [.copy2 file_path backup_path, .writeFile file_path updated_code]))

theorem splitlinesGo_noNL (l : Str) (acc : Str)
    (h : ∀ c ∈ l, ¬ c = '\n') :
    splitlinesGo l acc = [acc.reverse ++ l] := by
  induction l generalizing acc with
  | nil => simp [splitlinesGo]
  | cons c cs ih =>
    have hc : ¬ c = '\n' := h c (List.mem_cons_self c cs)
    simp only [splitlinesGo, if_neg hc]
    rw [ih _ (fun x hx => h x (List.mem_cons_of_mem c hx))]
    simp

theorem splitlinesGo_append_sep (l t : Str) (acc : Str)
    (h : ∀ c ∈ l, ¬ c = '\n') (ht : t ≠ []) :
    splitlinesGo (l ++ '\n' :: t) acc =
      (acc.reverse ++ l) :: splitlinesGo t [] := by
  induction l generalizing acc with
  | nil =>
    cases t with
    | nil => exact absurd rfl ht
    | cons d ds => simp [splitlinesGo]
  | cons c cs ih =>
    have hc : ¬ c = '\n' := h c (List.mem_cons_self c cs)
    simp only [List.cons_append, splitlinesGo, if_neg hc, List.append_eq]
    rw [ih _ (fun x hx => h x (List.mem_cons_of_mem c hx))]
    simp

theorem splitlinesGo_append_last (l : Str) (acc : Str)
    (h : ∀ c ∈ l, ¬ c = '\n') :
    splitlinesGo (l ++ ['\n']) acc = [acc.reverse ++ l] := by
  induction l generalizing acc with
  | nil => simp [splitlinesGo]
  | cons c cs ih =>
    have hc : ¬ c = '\n' := h c (List.mem_cons_self c cs)
    simp only [List.cons_append, splitlinesGo, if_neg hc, List.append_eq]
    rw [ih _ (fun x hx => h x (List.mem_cons_of_mem c hx))]
    simp

theorem dropWhile_head_false {p : Char → Bool} {l : Str} {c : Char}
    {rest : Str} (h : l.dropWhile p = c :: rest) : p c = false := by
  induction l with
  | nil => simp [List.dropWhile] at h
  | cons x xs ih =>
    by_cases hx : p x
    · rw [List.dropWhile_cons_of_pos hx] at h
      exact ih h
    · rw [List.dropWhile_cons_of_neg hx] at h
      cases h
      simpa using hx

/-- The recursive characterisation of `splitlines`: the first line is the
longest newline-free prefix, and the remainder (after the separating
newline, if any) is split recursively. -/
theorem splitlines_eq (s : Str) (hs : s ≠ []) :
    splitlines s =
      s.takeWhile (· ≠ '\n') ::
        (match s.dropWhile (· ≠ '\n') with
         | [] => []
         | _ :: rest => splitlines rest) := by
  have hsplit : s.takeWhile (· ≠ '\n') ++ s.dropWhile (· ≠ '\n') = s :=
    List.takeWhile_append_dropWhile _ _
  have htw : ∀ c ∈ s.takeWhile (· ≠ '\n'), ¬ c = '\n' := by
    intro c hc
    have := List.mem_takeWhile_imp hc
    simpa using this
  match hd : s.dropWhile (· ≠ '\n') with
  | [] =>
    rw [hd] at hsplit
    simp only [List.append_nil] at hsplit
    simp only [splitlines, if_neg hs]
    conv_lhs => rw [← hsplit]
    rw [splitlinesGo_noNL _ _ htw]
    simp
  | c :: rest =>
    have hc : c = '\n' := by
      have := dropWhile_head_false hd
      simpa using this
    subst hc
    rw [hd] at hsplit
    match hrest : rest with
    | [] =>
      simp only [splitlines, if_neg hs]
      conv_lhs => rw [← hsplit]
      rw [splitlinesGo_append_last _ _ htw]
      simp
    | r :: rs =>
      simp only [splitlines, if_neg hs]
      conv_lhs => rw [← hsplit]
      rw [splitlinesGo_append_sep _ _ _ htw (by simp)]
      simp

/-! ## String lemmas: stripping and line splitting versus substring
containment -/

theorem prefixThroughSep {w a b : Str} {c : Char} (hc : c ∉ w)
    (h : w <+: a ++ c :: b) : w <+: a := by
  induction w generalizing a with
  | nil => exact List.nil_prefix
  | cons y w' ih =>
    cases a with
    | nil =>
      rw [List.nil_append, List.cons_prefix_cons] at h
      exact absurd (h.1 ▸ List.mem_cons_self y w') hc
    | cons z a' =>
      rw [List.cons_append, List.cons_prefix_cons] at h
      have h2 := ih (fun hm => hc (List.mem_cons_of_mem y hm)) h.2
      exact List.cons_prefix_cons.mpr ⟨h.1, h2⟩

theorem infixThroughSep {w a b : Str} {c : Char} (hc : c ∉ w)
    (h : w <:+: a ++ c :: b) : w <:+: a ∨ w <:+: b := by
  induction a with
  | nil =>
    rw [List.nil_append] at h
    rcases List.infix_cons_iff.mp h with hp | hi
    · cases w with
      | nil => exact Or.inl List.nil_infix
      | cons y w' =>
        rw [List.cons_prefix_cons] at hp
        exact absurd (hp.1 ▸ List.mem_cons_self y w') hc
    · exact Or.inr hi
  | cons z a' ih =>
    rw [List.cons_append] at h
    rcases List.infix_cons_iff.mp h with hp | hi
    · have hp2 : w <+: (z :: a') ++ c :: b := by rwa [List.cons_append]
      exact Or.inl (prefixThroughSep hc hp2).isInfix
    · rcases ih hi with h3 | h3
      · exact Or.inl (h3.trans (List.infix_cons_iff.mpr
          (Or.inr (List.infix_refl a'))))
      · exact Or.inr h3

theorem infixDropWhile (p : Char → Bool) {v u : Str} (h : v <:+: u)
    (hv : ∀ c, v.head? = some c → p c = false) :
    v <:+: u.dropWhile p := by
  cases v with
  | nil => exact List.nil_infix
  | cons c v' =>
    obtain ⟨a, b, hab⟩ := h
    have hc : p c = false := hv c rfl
    subst hab
    rw [List.append_assoc, List.dropWhile_append]
    by_cases ha : (a.dropWhile p).isEmpty
    · simp only [ha, if_pos]
      rw [List.cons_append, List.dropWhile_cons_of_neg (by simp [hc])]
      exact ⟨[], b, by simp⟩
    · simp only [ha, if_neg, Bool.false_eq_true, not_false_iff]
      exact ⟨a.dropWhile p, b, by simp⟩

theorem infixRstrip {v u : Str} (h : v <:+: u)
    (hv : ∀ c, v.getLast? = some c → isWS c = false) :
    v <:+: rstrip u := by
  have h1 : v.reverse <:+: u.reverse := List.reverse_infix.mpr h
  have h2 : v.reverse <:+: u.reverse.dropWhile isWS := by
    refine infixDropWhile isWS h1 ?_
    intro c hc
    rw [List.head?_reverse] at hc
    exact hv c hc
  have h3 := List.reverse_infix.mpr h2
  rw [List.reverse_reverse] at h3
  exact h3

theorem infixLstrip {v u : Str} (h : v <:+: u)
    (hv : ∀ c, v.head? = some c → isWS c = false) :
    v <:+: lstrip u := infixDropWhile isWS h hv

theorem lstrip_head (s : Str) :
    ∀ c, (lstrip s).head? = some c → isWS c = false := by
  intro c hc
  have := List.head?_dropWhile_not isWS s
  rw [show s.dropWhile isWS = lstrip s from rfl, hc] at this
  exact this

theorem rstrip_getLast (s : Str) :
    ∀ c, (rstrip s).getLast? = some c → isWS c = false := by
  intro c hc
  rw [← List.head?_reverse] at hc
  rw [show (rstrip s).reverse = s.reverse.dropWhile isWS by
    simp [rstrip]] at hc
  have := List.head?_dropWhile_not isWS s.reverse
  rw [hc] at this
  exact this

theorem strip_head (s : Str) :
    ∀ c, (strip s).head? = some c → isWS c = false := lstrip_head _

theorem strip_getLast (s : Str) :
    ∀ c, (strip s).getLast? = some c → isWS c = false := by
  intro c hc
  have hsuf : strip s <:+ rstrip s := List.dropWhile_suffix isWS
  obtain ⟨t, ht⟩ := hsuf
  have hne : strip s ≠ [] := by
    intro h0
    rw [h0] at hc
    simp at hc
  have : (rstrip s).getLast? = some c := by
    rw [← ht, List.getLast?_append]
    rw [hc]
    rfl
  exact rstrip_getLast s c this

theorem lstripInfSelf (s : Str) : lstrip s <:+: s :=
  (List.dropWhile_suffix isWS).isInfix

theorem rstripInfSelf (s : Str) : rstrip s <:+: s := by
  have h1 : s.reverse.dropWhile isWS <:+ s.reverse :=
    List.dropWhile_suffix isWS
  have h2 := List.reverse_infix.mpr h1.isInfix
  rw [List.reverse_reverse] at h2
  exact h2

theorem strip_infix_self (s : Str) : strip s <:+: s :=
  (lstripInfSelf (rstrip s)).trans (rstripInfSelf s)

/-- A string whose ends are already stripped is contained in a string
iff it is contained in that string's `strip()`. -/
theorem infixStripIff (v u : Str)
    (hh : ∀ c, v.head? = some c → isWS c = false)
    (hl : ∀ c, v.getLast? = some c → isWS c = false) :
    v <:+: u ↔ v <:+: strip u := by
  constructor
  · intro h
    exact infixLstrip (infixRstrip h hl) hh
  · intro h
    exact h.trans (strip_infix_self u)

/-- `strip s` is contained in `u` iff it is contained in `strip u`. -/
theorem stripInfixStripIff (s u : Str) :
    strip s <:+: u ↔ strip s <:+: strip u :=
  infixStripIff _ _ (strip_head s) (strip_getLast s)

theorem splitlines_ne_nil {s : Str} (hs : s ≠ []) : splitlines s ≠ [] := by
  rw [splitlines_eq s hs]
  simp

theorem splitlines_headI {s : Str} (hs : s ≠ []) :
    (splitlines s).headI = s.takeWhile (· ≠ '\n') := by
  rw [splitlines_eq s hs]
  rfl

/-- A newline-free substring of a non-empty string is a substring of one
of its lines. -/
theorem infixSomeLine : ∀ (n : ℕ) (t w : Str), t.length ≤ n →
    w <:+: t → (∀ c ∈ w, ¬ c = '\n') → t ≠ [] →
    ∃ l ∈ splitlines t, w <:+: l := by
  intro n
  induction n with
  | zero =>
    intro t w hlen _ _ ht
    cases t with
    | nil => exact absurd rfl ht
    | cons c cs => simp at hlen
  | succ n ih =>
    intro t w hlen hw hnl ht
    have hsplit : t.takeWhile (· ≠ '\n') ++ t.dropWhile (· ≠ '\n') = t :=
      List.takeWhile_append_dropWhile _ _
    match hd : t.dropWhile (· ≠ '\n') with
    | [] =>
      have hA : t = t.takeWhile (· ≠ '\n') := by
        conv_lhs => rw [← hsplit]
        rw [hd, List.append_nil]
      refine ⟨t.takeWhile (· ≠ '\n'), ?_, ?_⟩
      · rw [splitlines_eq t ht]
        exact List.mem_cons_self _ _
      · rw [← hA]
        exact hw
    | c :: rest =>
      have hc : c = '\n' := by simpa using dropWhile_head_false hd
      subst hc
      have hteq : t.takeWhile (· ≠ '\n') ++ '\n' :: rest = t := by
        conv_rhs => rw [← hsplit, hd]
      have hnot : '\n' ∉ w := fun hm => hnl '\n' hm rfl
      have hcases : w <:+: t.takeWhile (· ≠ '\n') ∨ w <:+: rest := by
        apply infixThroughSep hnot
        rw [hteq]
        exact hw
      have hmem1 : t.takeWhile (· ≠ '\n') ∈ splitlines t := by
        rw [splitlines_eq t ht]
        exact List.mem_cons_self _ _
      rcases hcases with h1 | h2
      · exact ⟨_, hmem1, h1⟩
      · cases hr : rest with
        | nil =>
          subst hr
          have hw0 : w = [] := by
            have := h2.sublist
            simpa using this
          exact ⟨_, hmem1, hw0 ▸ List.nil_infix⟩
        | cons r rs =>
          subst hr
          have hlen2 : (r :: rs : Str).length ≤ n := by
            have : t.length = (t.takeWhile (· ≠ '\n')).length +
                (r :: rs : Str).length + 1 := by
              conv_lhs => rw [← hteq]
              simp [List.length_append]
              omega
            omega
          obtain ⟨l, hl, hwl⟩ := ih (r :: rs) w hlen2 h2 hnl (by simp)
          refine ⟨l, ?_, hwl⟩
          rw [splitlines_eq t ht]
          simp only [hd]
          exact List.mem_cons_of_mem _ hl

theorem flmGo_ge (fl : Str) (ls : List Str)
    (h : ∃ l ∈ ls, fl <:+: strip l) : 4/5 ≤ flmGo fl ls := by
  induction ls with
  | nil => simp at h
  | cons l ls ih =>
    obtain ⟨l', hl', hinf⟩ := h
    simp only [flmGo]
    by_cases h1 : strip l = fl
    · rw [if_pos h1]
      norm_num
    · rw [if_neg h1]
      by_cases h2 : fl <:+: strip l
      · rw [if_pos h2]
      · rw [if_neg h2]
        apply ih
        rcases List.mem_cons.mp hl' with rfl | hmem
        · exact absurd hinf h2
        · exact ⟨l', hmem, hinf⟩

theorem flmGo_cases (fl : Str) (ls : List Str) :
    flmGo fl ls = 0 ∨ flmGo fl ls = 4/5 ∨ flmGo fl ls = 1 := by
  induction ls with
  | nil => simp [flmGo]
  | cons l ls ih =>
    simp only [flmGo]
    by_cases h1 : strip l = fl
    · simp [h1]
    · rw [if_neg h1]
      by_cases h2 : fl <:+: strip l
      · simp [h2]
      · rw [if_neg h2]
        exact ih

theorem elmGo_cases (tl ll : List Str) (is : List Nat) :
    elmGo tl ll is = 0 ∨ elmGo tl ll is = 4/5 ∨ elmGo tl ll is = 1 := by
  induction is with
  | nil => simp [elmGo]
  | cons i is ih =>
    simp only [elmGo]
    by_cases h1 : elmAll tl ll i
    · simp [h1]
    · rw [if_neg h1]
      by_cases h2 : elmAny tl ll i
      · simp [h2]
      · rw [if_neg h2]
        exact ih

theorem first_line_match_bounds (t fl : Str) :
    0 ≤ first_line_match t fl ∧ first_line_match t fl ≤ 1 := by
  rcases flmGo_cases fl (splitlines t) with h | h | h <;>
    rw [first_line_match, h] <;> norm_num

theorem end_line_match_bounds (t : Str) (ll : List Str) :
    0 ≤ end_line_match t ll ∧ end_line_match t ll ≤ 1 := by
  rw [end_line_match]
  rcases elmGo_cases (splitlines t) ll
      (List.range (if ll.length ≤ (splitlines t).length
        then (splitlines t).length - ll.length + 1 else 0)) with h | h | h <;>
    rw [h] <;> norm_num

theorem string_similarity_nonneg (t s : Str) :
    0 ≤ string_similarity t s := by
  rw [string_similarity]
  by_cases h : s <:+: t
  · rw [if_pos h]
    norm_num
  · rw [if_neg h]
    positivity

theorem string_similarity_le_one (t s : Str) (h : tokens s ≠ []) :
    string_similarity t s ≤ 1 := by
  rw [string_similarity]
  by_cases hin : s <:+: t
  · rw [if_pos hin]
  · rw [if_neg hin]
    have hpos : 0 < ((tokSet s).card : ℚ) := by
      have hne : (tokSet s).Nonempty := by
        cases htk : tokens s with
        | nil => exact absurd htk h
        | cons a as => exact ⟨a, by rw [tokSet]; simp [htk]⟩
      rw [← Finset.card_pos] at hne
      exact_mod_cast hne
    rw [div_le_one hpos]
    exact_mod_cast Finset.card_le_card (Finset.inter_subset_left)

theorem ast_similarity_nonneg (env : PyEnv) (t s : Str) :
    0 ≤ ast_similarity env t s := by
  rw [ast_similarity]
  cases env.parse t with
  | none => simp
  | some tt =>
    cases env.parse s with
    | none => simp
    | some ts =>
      simp only
      positivity

theorem keyword_match_bounds (env : PyEnv) (t s : Str) :
    0 ≤ keyword_match env t s ∧ keyword_match env t s ≤ 1 := by
  rw [keyword_match]
  cases env.parse s with
  | none => simp
  | some ts =>
    cases env.parse t with
    | none => simp
    | some tt =>
      simp only
      by_cases h : namesOf ts = ∅
      · rw [if_pos h]
        norm_num
      · rw [if_neg h]
        have hpos : 0 < ((namesOf ts).card : ℚ) := by
          have := Finset.nonempty_iff_ne_empty.mpr h
          rw [← Finset.card_pos] at this
          exact_mod_cast this
        constructor
        · positivity
        · rw [div_le_one hpos]
          exact_mod_cast Finset.card_le_card (Finset.inter_subset_left)

/-- If a non-empty snippet occurs verbatim in the target, the snippet's
stripped first line is contained in the strip of some target line. -/
theorem firstLineInfix {s t : Str} (hs : s ≠ []) (hinf : s <:+: t) :
    ∃ l ∈ splitlines t, strip ((splitlines s).headI) <:+: strip l := by
  have ht : t ≠ [] := by
    intro h0
    subst h0
    have := hinf.sublist
    simp at this
    exact hs this
  rw [splitlines_headI hs]
  have h1 : strip (s.takeWhile (· ≠ '\n')) <:+: t := by
    refine (strip_infix_self _).trans ?_
    exact ((List.takeWhile_prefix _).isInfix).trans hinf
  have hnl : ∀ c ∈ strip (s.takeWhile (· ≠ '\n')), ¬ c = '\n' := by
    intro c hc
    have hmem : c ∈ s.takeWhile (· ≠ '\n') :=
      (strip_infix_self _).sublist.subset hc
    have := List.mem_takeWhile_imp hmem
    simpa using this
  obtain ⟨l, hl, hwl⟩ := infixSomeLine t.length t _ le_rfl h1 hnl ht
  exact ⟨l, hl, (stripInfixStripIff _ _).mp hwl⟩

/-! ## Safety-walk lemmas -/

theorem nodeVerdict_raise_iff (dirB : List Str) (n : PyNode) :
    nodeVerdict dirB n = .raiseAttr ↔ n = .importFromStmt none := by
  cases n with
  | importFromStmt m =>
    cases m with
    | none => simp [nodeVerdict]
    | some v =>
      simp only [nodeVerdict]
      split_ifs <;> simp
  | nameRef id =>
    simp only [nodeVerdict]
    split_ifs <;> simp
  | importPlain als =>
    simp only [nodeVerdict]
    split_ifs <;> simp
  | callName id =>
    simp only [nodeVerdict]
    split_ifs <;> simp
  | attrAccess a =>
    simp only [nodeVerdict]
    split_ifs <;> simp
  | module => simp [nodeVerdict]
  | delStmt => simp [nodeVerdict]
  | otherNode => simp [nodeVerdict]

theorem walkVerdict_reject (dirB : List Str) (nodes : List PyNode)
    (hno : PyNode.importFromStmt none ∉ nodes)
    (hrej : ∃ n ∈ nodes, nodeVerdict dirB n = .reject) :
    walkVerdict dirB nodes = .ok false := by
  induction nodes with
  | nil => simp at hrej
  | cons n ns ih =>
    match hv : nodeVerdict dirB n with
    | .raiseAttr =>
      have := (nodeVerdict_raise_iff dirB n).mp hv
      exact absurd (this ▸ List.mem_cons_self n ns) hno
    | .reject => simp [walkVerdict, hv]
    | .cont =>
      simp only [walkVerdict, hv]
      apply ih
      · exact fun hm => hno (List.mem_cons_of_mem n hm)
      · obtain ⟨m, hm, hmr⟩ := hrej
        rcases List.mem_cons.mp hm with rfl | hmem
        · rw [hv] at hmr
          exact absurd hmr (by simp)
        · exact ⟨m, hmem, hmr⟩

theorem nodeVerdict_import_bad (dirB : List Str) (als : List Str)
    (h : ∃ a ∈ als, topModule a ∉ allowed_modules) :
    nodeVerdict dirB (.importPlain als) = .reject := by
  simp only [nodeVerdict]
  rw [if_pos]
  obtain ⟨a, ha, hmod⟩ := h
  exact List.any_eq_true.mpr ⟨a, ha, by simpa using hmod⟩

theorem walkVerdict_skip_cont (dirB : List Str) (pre rest : List PyNode)
    (hpre : ∀ n ∈ pre, nodeVerdict dirB n = .cont) :
    walkVerdict dirB (pre ++ rest) = walkVerdict dirB rest := by
  induction pre with
  | nil => rfl
  | cons n ns ih =>
    have hn := hpre n (List.mem_cons_self n ns)
    rw [List.cons_append]
    simp only [walkVerdict, hn]
    exact ih (fun m hm => hpre m (List.mem_cons_of_mem n hm))

/-! ## Claims about `execute_code` -/

/-- **C1** (amended).  For every snippet that parses and contains a
plain import statement with some alias whose top-level module is outside
`allowed_modules`, and that contains no relative from-import with absent
module name (which would make the safety walk raise instead of
returning), `execute_code` returns
`{success: False, output: '', error: <unsafe>, execution_time: 0}`
without consulting the execution environment. -/
theorem C1_unsafe_import_rejected (dirB : List Str) (timeout : Nat)
    (nodes : List PyNode) (env : ExecEnv)
    (hno : PyNode.importFromStmt none ∉ nodes)
    (hbad : ∃ als, PyNode.importPlain als ∈ nodes ∧
      ∃ a ∈ als, topModule a ∉ allowed_modules) :
    execute_code dirB timeout (some nodes) env =
      .ok ⟨false, [], rejectMsg, 0⟩ := by
  obtain ⟨als, hmem, ha⟩ := hbad
  have hsafe : walkVerdict dirB nodes = .ok false :=
    walkVerdict_reject dirB nodes hno
      ⟨_, hmem, nodeVerdict_import_bad dirB als ha⟩
  simp [execute_code, is_safe_code, hsafe]

theorem C1_witness :
    execute_code [] 30
      (some [PyNode.module, PyNode.importPlain ["os".toList]])
      ⟨false, [], ⟨true, [], []⟩, 0⟩ = .ok ⟨false, [], rejectMsg, 0⟩ :=
  C1_unsafe_import_rejected [] 30 _ _ (by decide)
    ⟨["os".toList], by decide, "os".toList, by decide, by decide⟩

/-- **C1** counterexample to the claim as stated: the snippet
`from . import x\nimport os` contains an import of the disallowed
module `os`, yet `execute_code` propagates an `AttributeError` from the
safety walk instead of returning the failure dictionary. -/
theorem C1_counterexample :
    execute_code [] 30
      (some [PyNode.module, PyNode.importFromStmt none,
             PyNode.importPlain ["os".toList]])
      ⟨false, [], ⟨true, [], []⟩, 0⟩ = .error .attributeErrorNoneSplit ∧
    (Except.error PyErr.attributeErrorNoneSplit ≠
      (Except.ok ⟨false, [], rejectMsg, 0⟩ : Except PyErr ExecResult)) :=
  ⟨rfl, by simp⟩

/-- **C2**.  For every vetted snippet (safety walk returns `True`) whose
worker thread is still alive once `join(timeout)` returns,
`execute_code` reports `success=False`, the timeout error message, and
`execution_time` exactly the configured timeout; the result does not
depend on the worker's queued result or on the measured elapsed time
(the worker is not waited for further). -/
theorem C2_timeout_result (dirB : List Str) (timeout : Nat)
    (parsed : Option (List PyNode)) (env : ExecEnv)
    (hsafe : is_safe_code dirB parsed = .ok true)
    (halive : env.workerAlive = true) :
    execute_code dirB timeout parsed env =
      .ok ⟨false, env.captured, timeoutMsg timeout, (timeout : ℚ)⟩ ∧
    ∀ w e, execute_code dirB timeout parsed ⟨true, env.captured, w, e⟩ =
      execute_code dirB timeout parsed env := by
  constructor
  · simp [execute_code, hsafe, halive]
  · intro w e
    simp [execute_code, hsafe, halive]

theorem C2_witness :
    execute_code [] 1 (some [PyNode.module])
      ⟨true, "partial".toList, ⟨true, [], []⟩, 7/2⟩ =
      .ok ⟨false, "partial".toList, timeoutMsg 1, 1⟩ := by
  have h := C2_timeout_result [] 1 (some [PyNode.module])
    ⟨true, "partial".toList, ⟨true, [], []⟩, 7/2⟩ (by rfl) rfl
  rw [h.1]
  norm_num

/-- **C10** (amended).  For every snippet that parses and whose AST walk
reaches a relative from-import with absent module name before any node
that rejects, `_is_safe_code` raises `AttributeError` instead of
returning a verdict, and `execute_code` propagates that exception
rather than returning a result dictionary. -/
theorem C10_relative_import_raises (dirB : List Str) (timeout : Nat)
    (env : ExecEnv) (pre post : List PyNode)
    (hpre : ∀ n ∈ pre, nodeVerdict dirB n = .cont) :
    is_safe_code dirB (some (pre ++ .importFromStmt none :: post)) =
      .error .attributeErrorNoneSplit ∧
    execute_code dirB timeout
      (some (pre ++ .importFromStmt none :: post)) env =
      .error .attributeErrorNoneSplit := by
  have hwalk : walkVerdict dirB (pre ++ .importFromStmt none :: post) =
      .error .attributeErrorNoneSplit := by
    rw [walkVerdict_skip_cont dirB pre _ hpre]
    rfl
  refine ⟨hwalk, ?_⟩
  simp [execute_code, is_safe_code, hwalk]

theorem C10_witness :
    is_safe_code [] (some [PyNode.module, PyNode.importFromStmt none]) =
      .error .attributeErrorNoneSplit ∧
    execute_code [] 30 (some [PyNode.module, PyNode.importFromStmt none])
      ⟨false, [], ⟨true, [], []⟩, 0⟩ = .error .attributeErrorNoneSplit :=
  C10_relative_import_raises [] 30 ⟨false, [], ⟨true, [], []⟩, 0⟩
    [PyNode.module] [] (by decide)

/-- **C10** counterexample to the claim as stated: a parsed snippet
containing `from . import x` but preceded, in walk order, by a `del`
statement (e.g. `del x\nfrom . import x`) makes `_is_safe_code` return
`False` normally, and `execute_code` returns the ordinary failure
dictionary — no exception escapes. -/
theorem C10_counterexample :
    is_safe_code []
      (some [PyNode.module, PyNode.delStmt, PyNode.importFromStmt none]) =
      .ok false ∧
    execute_code [] 30
      (some [PyNode.module, PyNode.delStmt, PyNode.importFromStmt none])
      ⟨false, [], ⟨true, [], []⟩, 0⟩ = .ok ⟨false, [], rejectMsg, 0⟩ :=
  ⟨rfl, rfl⟩

/-! ## Claims about `check_folder_for_snippet` -/

theorem check_folder_parse_fail (env : PyEnv) (present : Bool)
    (files : List FileEntry) (folderPath snippet : Str)
    (hparse : env.parse snippet = none) :
    check_folder_for_snippet env present files folderPath snippet =
      (if present = false then .error .folderNotFound
       else if strip snippet = [] then .error .emptySnippet
       else .error .snippetSyntaxError) := by
  rw [check_folder_for_snippet]
  by_cases hp : present = false
  · simp [hp]
  · rw [if_neg hp, if_neg hp]
    by_cases hst : strip snippet = []
    · simp [hst]
    · rw [if_neg hst, if_neg hst, hparse]

/-- **C5**.  For every snippet whose parse fails (`SyntaxError`):
`check_folder_for_snippet` raises a `ValueError` up front without
examining any file of the directory listing, and `execute_code` returns
`{success: False, output: '', execution_time: 0}` without consulting the
execution environment. -/
theorem C5_syntax_error_refused (env : PyEnv) (present : Bool)
    (files : List FileEntry) (folderPath snippet : Str)
    (dirB : List Str) (timeout : Nat) (eenv : ExecEnv)
    (hparse : env.parse snippet = none) :
    (∃ e, check_folder_for_snippet env present files folderPath snippet =
      .error e) ∧
    (∀ files2, check_folder_for_snippet env present files folderPath snippet =
      check_folder_for_snippet env present files2 folderPath snippet) ∧
    execute_code dirB timeout (env.parse snippet) eenv =
      .ok ⟨false, [], rejectMsg, 0⟩ ∧
    (∀ eenv2, execute_code dirB timeout (env.parse snippet) eenv2 =
      execute_code dirB timeout (env.parse snippet) eenv) := by
  refine ⟨?_, ?_, ?_, ?_⟩
  · rw [check_folder_parse_fail env present files folderPath snippet hparse]
    by_cases hp : present = false
    · exact ⟨.folderNotFound, by simp [hp]⟩
    · by_cases hst : strip snippet = []
      · exact ⟨.emptySnippet, by simp [hp, hst]⟩
      · exact ⟨.snippetSyntaxError, by simp [hp, hst]⟩
  · intro files2
    rw [check_folder_parse_fail env present files folderPath snippet hparse,
      check_folder_parse_fail env present files2 folderPath snippet hparse]
  · rw [hparse]
    rfl
  · intro eenv2
    rw [hparse]
    rfl

theorem C5_witness :
    (∃ e, check_folder_for_snippet ⟨fun _ => none⟩ true
      [⟨"a.py".toList, some "x = 1".toList⟩] "proj".toList
      "def f(:".toList = .error e) ∧
    execute_code [] 30 ((⟨fun _ => none⟩ : PyEnv).parse "def f(:".toList)
      ⟨false, [], ⟨true, [], []⟩, 0⟩ = .ok ⟨false, [], rejectMsg, 0⟩ := by
  have h := C5_syntax_error_refused ⟨fun _ => none⟩ true
    [⟨"a.py".toList, some "x = 1".toList⟩] "proj".toList "def f(:".toList
    [] 30 ⟨false, [], ⟨true, [], []⟩, 0⟩ rfl
  exact ⟨h.1, h.2.2.1⟩

/-! ## Claims about `SnippetUpdater` -/

theorem strip_allWS {l : Str} (h : ∀ c ∈ l, isWS c = true) :
    strip l = [] := by
  have hr : rstrip l = [] := by
    rw [rstrip]
    have : l.reverse.dropWhile isWS = [] :=
      List.dropWhile_eq_nil_iff.mpr (fun x hx => h x (by simpa using hx))
    rw [this]
    rfl
  rw [strip, hr]
  rfl

/-- **C9** (amended).  When the target indentation equals the snippet
indentation, `_adjust_snippet_indentation` maps every non-blank snippet
line that starts with that (whitespace) indentation — in particular
every non-blank line when the indentation is empty — to itself; a
non-blank line shorter than the indentation or not starting with it is
changed.  The whole function is the line-wise map joined by newlines. -/
theorem C9_equal_indent_identity (ind s : Str)
    (hws : ∀ c ∈ ind, isWS c = true) :
    (∀ l ∈ splitlines s, strip l ≠ [] → ind <+: l →
      adjustLine ind ind l = l) ∧
    adjust_snippet_indentation s ind ind =
      joinLines ((splitlines s).map (adjustLine ind ind)) := by
  refine ⟨?_, rfl⟩
  intro l _ hnb hpre
  obtain ⟨r, rfl⟩ := hpre
  have hr : r ≠ [] := by
    rintro rfl
    rw [List.append_nil] at hnb
    exact hnb (strip_allWS hws)
  rw [adjustLine, if_neg hnb, if_pos]
  · rw [List.drop_left]
  · rw [List.length_append]
    have : 0 < r.length := List.length_pos.mpr hr
    omega

theorem C9_witness :
    adjustLine "  ".toList "  ".toList "  a".toList = "  a".toList :=
  (C9_equal_indent_identity "  ".toList "  a\n  b".toList (by decide)).1
    "  a".toList (by decide) (by decide) (by decide)

/-- **C9** counterexample to the claim as stated: with equal target and
snippet indentation `"  "`, the non-blank snippet line `"x"` (shorter
than the indentation) is rewritten to `"  x"`, so the adjustment is not
the identity on all non-blank lines. -/
theorem C9_counterexample :
    adjust_snippet_indentation "  a\nx".toList "  ".toList "  ".toList =
      "  a\n  x".toList ∧
    (splitlines "  a\nx".toList).getD 1 [] = "x".toList ∧
    strip "x".toList ≠ [] ∧
    adjustLine "  ".toList "  ".toList "x".toList = "  x".toList ∧
    "  x".toList ≠ "x".toList :=
  ⟨rfl, rfl, by decide, rfl, by decide⟩

/-! ## Claims about `backup_and_write_code` -/

theorem lookup_setFS_self (fs : FS) (p : Str) (d : FileData) :
    lookupFS (setFS fs p d) p = some d := by
  simp [setFS, lookupFS]

theorem lookup_setFS_ne (fs : FS) (p q : Str) (d : FileData)
    (h : p ≠ q) : lookupFS (setFS fs p d) q = lookupFS fs q := by
  simp [setFS, lookupFS, h]

/-- **C3** (amended).  If the target file does not exist,
`backup_and_write_code` raises `FileNotFoundError` and leaves the
filesystem unchanged.  Otherwise, provided the computed backup path
(`splitext(file_path)[0] + ".old"`) differs from the target path, it
performs the backup copy (preserving content and metadata) strictly
before the overwrite — the returned operation trace is
`[copy2, write]` — and returns the backup path; afterwards the backup
holds the original file data and the target holds the new content. -/
theorem C3_backup_then_write (fs : FS) (p c : Str) :
    (lookupFS fs p = none →
      backup_and_write_code fs p c = (fs, .error .fileNotFoundError)) ∧
    (∀ fd, lookupFS fs p = some fd →
      splitextRoot p ++ ".old".toList ≠ p →
      backup_and_write_code fs p c =
        (setFS (setFS fs (splitextRoot p ++ ".old".toList) fd) p
           ⟨c, fd.meta⟩,
         .ok (splitextRoot p ++ ".old".toList,
           [.copy2 p (splitextRoot p ++ ".old".toList),
            .writeFile p c])) ∧
      lookupFS (backup_and_write_code fs p c).1
        (splitextRoot p ++ ".old".toList) = some fd ∧
      lookupFS (backup_and_write_code fs p c).1 p = some ⟨c, fd.meta⟩) := by
  constructor
  · intro h
    rw [backup_and_write_code, h]
  · intro fd hfd hne
    have heq : backup_and_write_code fs p c =
        (setFS (setFS fs (splitextRoot p ++ ".old".toList) fd) p
           ⟨c, fd.meta⟩,
         .ok (splitextRoot p ++ ".old".toList,
           [.copy2 p (splitextRoot p ++ ".old".toList),
            .writeFile p c])) := by
      rw [backup_and_write_code, hfd]
      simp only [if_neg hne]
    refine ⟨heq, ?_, ?_⟩
    · rw [heq]
      rw [lookup_setFS_ne _ _ _ _ (fun h => hne h.symm)]
      exact lookup_setFS_self _ _ _
    · rw [heq]
      exact lookup_setFS_self _ _ _

theorem C3_witness :
    splitextRoot "a.py".toList ++ ".old".toList = "a.old".toList ∧
    lookupFS (backup_and_write_code [("a.py".toList, ⟨"x".toList, 7⟩)]
      "a.py".toList "y".toList).1 "a.old".toList = some ⟨"x".toList, 7⟩ ∧
    lookupFS (backup_and_write_code [("a.py".toList, ⟨"x".toList, 7⟩)]
      "a.py".toList "y".toList).1 "a.py".toList = some ⟨"y".toList, 7⟩ := by
  have h := (C3_backup_then_write [("a.py".toList, ⟨"x".toList, 7⟩)]
    "a.py".toList "y".toList).2 ⟨"x".toList, 7⟩ (by decide) (by decide)
  have hbp : splitextRoot "a.py".toList ++ ".old".toList =
      "a.old".toList := by decide
  refine ⟨hbp, ?_, h.2.2⟩
  rw [← hbp]
  exact h.2.1

/-- **C3** counterexample to the claim as stated: for an existing target
whose name already ends in `.old`, the computed backup path equals the
target path, `shutil.copy2` raises `SameFileError`, and neither a backup
nor an overwrite happens — the "otherwise" branch of the claim fails. -/
theorem C3_counterexample :
    lookupFS [("a.old".toList, ⟨"x".toList, 0⟩)] "a.old".toList =
      some ⟨"x".toList, 0⟩ ∧
    backup_and_write_code [("a.old".toList, ⟨"x".toList, 0⟩)]
      "a.old".toList "y".toList =
      ([("a.old".toList, ⟨"x".toList, 0⟩)], .error .sameFileError) :=
  ⟨rfl, rfl⟩

/-! ## Claims about the match signals -/

/-- **C4** (amended).  For every parse environment, target and snippet:
`first_line`, `keyword_overlap` and `end_line` lie in `[0,1]`;
`string_similarity` is nonnegative, and lies in `[0,1]` whenever the
snippet has at least one whitespace-separated token (otherwise Python
raises `ZeroDivisionError`); `ast_similarity` is nonnegative but **not**
bounded by 1; the weighted confidence is nonnegative, and lies in
`[0,1]` whenever `ast_similarity ≤ 1` (and the snippet has a token). -/
theorem C4_signal_bounds (env : PyEnv) (t s : Str) :
    (0 ≤ (calculate_matching_scores env t s).first_line_match ∧
      (calculate_matching_scores env t s).first_line_match ≤ 1) ∧
    0 ≤ (calculate_matching_scores env t s).string_match ∧
    (tokens s ≠ [] → (calculate_matching_scores env t s).string_match ≤ 1) ∧
    0 ≤ (calculate_matching_scores env t s).ast_similarity ∧
    (0 ≤ (calculate_matching_scores env t s).keyword_match ∧
      (calculate_matching_scores env t s).keyword_match ≤ 1) ∧
    (0 ≤ (calculate_matching_scores env t s).end_line_match ∧
      (calculate_matching_scores env t s).end_line_match ≤ 1) ∧
    0 ≤ calculate_confidence_score (calculate_matching_scores env t s) ∧
    ((calculate_matching_scores env t s).ast_similarity ≤ 1 →
      tokens s ≠ [] →
      calculate_confidence_score (calculate_matching_scores env t s) ≤ 1) := by
  have hfl := first_line_match_bounds t (strip ((splitlines s).headI))
  have hel := end_line_match_bounds t (lastN 3 (splitlines s))
  have hkw := keyword_match_bounds env t s
  have hss0 := string_similarity_nonneg t s
  have hast0 := ast_similarity_nonneg env t s
  simp only [calculate_matching_scores, calculate_confidence_score]
  refine ⟨hfl, hss0, fun h => string_similarity_le_one t s h, hast0, hkw,
    hel, ?_, ?_⟩
  · linarith [hfl.1, hss0, hast0, hkw.1, hel.1]
  · intro hast1 htok
    have hss1 := string_similarity_le_one t s htok
    linarith [hfl.2, hss1, hast1, hkw.2, hel.2]

theorem C4_witness :
    (calculate_matching_scores ⟨fun _ => none⟩ "y".toList
      "x".toList).string_match ≤ 1 ∧
    calculate_confidence_score (calculate_matching_scores ⟨fun _ => none⟩
      "y".toList "x".toList) ≤ 1 :=
  ⟨(C4_signal_bounds ⟨fun _ => none⟩ "y".toList "x".toList).2.2.1
      (by decide),
   (C4_signal_bounds ⟨fun _ => none⟩ "y".toList "x".toList).2.2.2.2.2.2.2
      (by simp [calculate_matching_scores, ast_similarity]) (by decide)⟩

/-- **C4** counterexample to the claim as stated: with target
`x = 1` (5 walked AST nodes) and snippet `x = 1` repeated on 5 lines
(21 walked nodes), `_ast_similarity` is `21/5 > 1`, and the weighted
confidence is `36/25 > 1`.  The node lists mirror CPython's
`ast.walk` output for these sources (`Module`, then per assignment
`Assign`, `Name`, `Store`, `Constant`); the parse environment
dispatches on the source length (5 versus 29 characters). -/
theorem C4_counterexample :
    (calculate_matching_scores
      ⟨fun q =>
      if q.length = 5 then
        some [PyNode.module, PyNode.otherNode, PyNode.nameRef ['x'], PyNode.otherNode,
       PyNode.otherNode]
      else
        some [PyNode.module,
       PyNode.otherNode, PyNode.nameRef ['x'], PyNode.otherNode, PyNode.otherNode,
       PyNode.otherNode, PyNode.nameRef ['x'], PyNode.otherNode, PyNode.otherNode,
       PyNode.otherNode, PyNode.nameRef ['x'], PyNode.otherNode, PyNode.otherNode,
       PyNode.otherNode, PyNode.nameRef ['x'], PyNode.otherNode, PyNode.otherNode,
       PyNode.otherNode, PyNode.nameRef ['x'], PyNode.otherNode, PyNode.otherNode]⟩
      "x = 1".toList "x = 1\nx = 1\nx = 1\nx = 1\nx = 1".toList).ast_similarity = 21/5 ∧
    ¬ ((calculate_matching_scores
      ⟨fun q =>
      if q.length = 5 then
        some [PyNode.module, PyNode.otherNode, PyNode.nameRef ['x'], PyNode.otherNode,
       PyNode.otherNode]
      else
        some [PyNode.module,
       PyNode.otherNode, PyNode.nameRef ['x'], PyNode.otherNode, PyNode.otherNode,
       PyNode.otherNode, PyNode.nameRef ['x'], PyNode.otherNode, PyNode.otherNode,
       PyNode.otherNode, PyNode.nameRef ['x'], PyNode.otherNode, PyNode.otherNode,
       PyNode.otherNode, PyNode.nameRef ['x'], PyNode.otherNode, PyNode.otherNode,
       PyNode.otherNode, PyNode.nameRef ['x'], PyNode.otherNode, PyNode.otherNode]⟩
      "x = 1".toList "x = 1\nx = 1\nx = 1\nx = 1\nx = 1".toList).ast_similarity ≤ 1) ∧
    calculate_confidence_score (calculate_matching_scores
      ⟨fun q =>
      if q.length = 5 then
        some [PyNode.module, PyNode.otherNode, PyNode.nameRef ['x'], PyNode.otherNode,
       PyNode.otherNode]
      else
        some [PyNode.module,
       PyNode.otherNode, PyNode.nameRef ['x'], PyNode.otherNode, PyNode.otherNode,
       PyNode.otherNode, PyNode.nameRef ['x'], PyNode.otherNode, PyNode.otherNode,
       PyNode.otherNode, PyNode.nameRef ['x'], PyNode.otherNode, PyNode.otherNode,
       PyNode.otherNode, PyNode.nameRef ['x'], PyNode.otherNode, PyNode.otherNode,
       PyNode.otherNode, PyNode.nameRef ['x'], PyNode.otherNode, PyNode.otherNode]⟩
      "x = 1".toList "x = 1\nx = 1\nx = 1\nx = 1\nx = 1".toList) = 36/25 ∧
    ¬ (calculate_confidence_score (calculate_matching_scores
      ⟨fun q =>
      if q.length = 5 then
        some [PyNode.module, PyNode.otherNode, PyNode.nameRef ['x'], PyNode.otherNode,
       PyNode.otherNode]
      else
        some [PyNode.module,
       PyNode.otherNode, PyNode.nameRef ['x'], PyNode.otherNode, PyNode.otherNode,
       PyNode.otherNode, PyNode.nameRef ['x'], PyNode.otherNode, PyNode.otherNode,
       PyNode.otherNode, PyNode.nameRef ['x'], PyNode.otherNode, PyNode.otherNode,
       PyNode.otherNode, PyNode.nameRef ['x'], PyNode.otherNode, PyNode.otherNode,
       PyNode.otherNode, PyNode.nameRef ['x'], PyNode.otherNode, PyNode.otherNode]⟩
      "x = 1".toList "x = 1\nx = 1\nx = 1\nx = 1\nx = 1".toList) ≤ 1) := by
  have hlt : splitlines "x = 1".toList = ["x = 1".toList] := by decide
  have hls : splitlines "x = 1\nx = 1\nx = 1\nx = 1\nx = 1".toList =
      ["x = 1".toList, "x = 1".toList, "x = 1".toList, "x = 1".toList, "x = 1".toList] := by decide
  have hstrip : strip "x = 1".toList = "x = 1".toList := by decide
  have hpt : (PyEnv.parse
      ⟨fun q =>
      if q.length = 5 then
        some [PyNode.module, PyNode.otherNode, PyNode.nameRef ['x'], PyNode.otherNode,
       PyNode.otherNode]
      else
        some [PyNode.module,
       PyNode.otherNode, PyNode.nameRef ['x'], PyNode.otherNode, PyNode.otherNode,
       PyNode.otherNode, PyNode.nameRef ['x'], PyNode.otherNode, PyNode.otherNode,
       PyNode.otherNode, PyNode.nameRef ['x'], PyNode.otherNode, PyNode.otherNode,
       PyNode.otherNode, PyNode.nameRef ['x'], PyNode.otherNode, PyNode.otherNode,
       PyNode.otherNode, PyNode.nameRef ['x'], PyNode.otherNode, PyNode.otherNode]⟩
      "x = 1".toList) = some [PyNode.module, PyNode.otherNode, PyNode.nameRef ['x'], PyNode.otherNode,
       PyNode.otherNode] := rfl
  have hps : (PyEnv.parse
      ⟨fun q =>
      if q.length = 5 then
        some [PyNode.module, PyNode.otherNode, PyNode.nameRef ['x'], PyNode.otherNode,
       PyNode.otherNode]
      else
        some [PyNode.module,
       PyNode.otherNode, PyNode.nameRef ['x'], PyNode.otherNode, PyNode.otherNode,
       PyNode.otherNode, PyNode.nameRef ['x'], PyNode.otherNode, PyNode.otherNode,
       PyNode.otherNode, PyNode.nameRef ['x'], PyNode.otherNode, PyNode.otherNode,
       PyNode.otherNode, PyNode.nameRef ['x'], PyNode.otherNode, PyNode.otherNode,
       PyNode.otherNode, PyNode.nameRef ['x'], PyNode.otherNode, PyNode.otherNode]⟩
      "x = 1\nx = 1\nx = 1\nx = 1\nx = 1".toList) = some [PyNode.module,
       PyNode.otherNode, PyNode.nameRef ['x'], PyNode.otherNode, PyNode.otherNode,
       PyNode.otherNode, PyNode.nameRef ['x'], PyNode.otherNode, PyNode.otherNode,
       PyNode.otherNode, PyNode.nameRef ['x'], PyNode.otherNode, PyNode.otherNode,
       PyNode.otherNode, PyNode.nameRef ['x'], PyNode.otherNode, PyNode.otherNode,
       PyNode.otherNode, PyNode.nameRef ['x'], PyNode.otherNode, PyNode.otherNode] := rfl
  have hfl : first_line_match "x = 1".toList
      (strip ((splitlines "x = 1\nx = 1\nx = 1\nx = 1\nx = 1".toList).headI)) = 1 := by
    rw [hls]
    show first_line_match "x = 1".toList (strip "x = 1".toList) = 1
    rw [hstrip, first_line_match, hlt]
    show flmGo "x = 1".toList ["x = 1".toList] = 1
    rw [flmGo, if_pos hstrip]
  have hsm : string_similarity "x = 1".toList "x = 1\nx = 1\nx = 1\nx = 1\nx = 1".toList = 1 := by
    rw [string_similarity, if_neg (by decide)]
    rw [show (tokSet "x = 1\nx = 1\nx = 1\nx = 1\nx = 1".toList ∩ tokSet "x = 1".toList).card = 3 from by decide]
    rw [show (tokSet "x = 1\nx = 1\nx = 1\nx = 1\nx = 1".toList).card = 3 from by decide]
    norm_num
  have hast : ast_similarity
      ⟨fun q =>
      if q.length = 5 then
        some [PyNode.module, PyNode.otherNode, PyNode.nameRef ['x'], PyNode.otherNode,
       PyNode.otherNode]
      else
        some [PyNode.module,
       PyNode.otherNode, PyNode.nameRef ['x'], PyNode.otherNode, PyNode.otherNode,
       PyNode.otherNode, PyNode.nameRef ['x'], PyNode.otherNode, PyNode.otherNode,
       PyNode.otherNode, PyNode.nameRef ['x'], PyNode.otherNode, PyNode.otherNode,
       PyNode.otherNode, PyNode.nameRef ['x'], PyNode.otherNode, PyNode.otherNode,
       PyNode.otherNode, PyNode.nameRef ['x'], PyNode.otherNode, PyNode.otherNode]⟩
      "x = 1".toList "x = 1\nx = 1\nx = 1\nx = 1\nx = 1".toList = 21/5 := by
    rw [ast_similarity, hpt, hps]
    show (((21:ℕ) : ℚ) / ((5:ℕ) : ℚ)) = 21/5
    norm_num
  have hkw : keyword_match
      ⟨fun q =>
      if q.length = 5 then
        some [PyNode.module, PyNode.otherNode, PyNode.nameRef ['x'], PyNode.otherNode,
       PyNode.otherNode]
      else
        some [PyNode.module,
       PyNode.otherNode, PyNode.nameRef ['x'], PyNode.otherNode, PyNode.otherNode,
       PyNode.otherNode, PyNode.nameRef ['x'], PyNode.otherNode, PyNode.otherNode,
       PyNode.otherNode, PyNode.nameRef ['x'], PyNode.otherNode, PyNode.otherNode,
       PyNode.otherNode, PyNode.nameRef ['x'], PyNode.otherNode, PyNode.otherNode,
       PyNode.otherNode, PyNode.nameRef ['x'], PyNode.otherNode, PyNode.otherNode]⟩
      "x = 1".toList "x = 1\nx = 1\nx = 1\nx = 1\nx = 1".toList = 1 := by
    rw [keyword_match, hpt, hps]
    show (if namesOf [PyNode.module,
       PyNode.otherNode, PyNode.nameRef ['x'], PyNode.otherNode, PyNode.otherNode,
       PyNode.otherNode, PyNode.nameRef ['x'], PyNode.otherNode, PyNode.otherNode,
       PyNode.otherNode, PyNode.nameRef ['x'], PyNode.otherNode, PyNode.otherNode,
       PyNode.otherNode, PyNode.nameRef ['x'], PyNode.otherNode, PyNode.otherNode,
       PyNode.otherNode, PyNode.nameRef ['x'], PyNode.otherNode, PyNode.otherNode] = ∅ then (0:ℚ)
      else ((namesOf [PyNode.module,
       PyNode.otherNode, PyNode.nameRef ['x'], PyNode.otherNode, PyNode.otherNode,
       PyNode.otherNode, PyNode.nameRef ['x'], PyNode.otherNode, PyNode.otherNode,
       PyNode.otherNode, PyNode.nameRef ['x'], PyNode.otherNode, PyNode.otherNode,
       PyNode.otherNode, PyNode.nameRef ['x'], PyNode.otherNode, PyNode.otherNode,
       PyNode.otherNode, PyNode.nameRef ['x'], PyNode.otherNode, PyNode.otherNode] ∩ namesOf [PyNode.module, PyNode.otherNode, PyNode.nameRef ['x'], PyNode.otherNode,
       PyNode.otherNode]).card : ℚ) /
        ((namesOf [PyNode.module,
       PyNode.otherNode, PyNode.nameRef ['x'], PyNode.otherNode, PyNode.otherNode,
       PyNode.otherNode, PyNode.nameRef ['x'], PyNode.otherNode, PyNode.otherNode,
       PyNode.otherNode, PyNode.nameRef ['x'], PyNode.otherNode, PyNode.otherNode,
       PyNode.otherNode, PyNode.nameRef ['x'], PyNode.otherNode, PyNode.otherNode,
       PyNode.otherNode, PyNode.nameRef ['x'], PyNode.otherNode, PyNode.otherNode]).card : ℚ)) = 1
    rw [if_neg (by decide)]
    rw [show (namesOf [PyNode.module,
       PyNode.otherNode, PyNode.nameRef ['x'], PyNode.otherNode, PyNode.otherNode,
       PyNode.otherNode, PyNode.nameRef ['x'], PyNode.otherNode, PyNode.otherNode,
       PyNode.otherNode, PyNode.nameRef ['x'], PyNode.otherNode, PyNode.otherNode,
       PyNode.otherNode, PyNode.nameRef ['x'], PyNode.otherNode, PyNode.otherNode,
       PyNode.otherNode, PyNode.nameRef ['x'], PyNode.otherNode, PyNode.otherNode] ∩ namesOf [PyNode.module, PyNode.otherNode, PyNode.nameRef ['x'], PyNode.otherNode,
       PyNode.otherNode]).card = 1 from by decide]
    rw [show (namesOf [PyNode.module,
       PyNode.otherNode, PyNode.nameRef ['x'], PyNode.otherNode, PyNode.otherNode,
       PyNode.otherNode, PyNode.nameRef ['x'], PyNode.otherNode, PyNode.otherNode,
       PyNode.otherNode, PyNode.nameRef ['x'], PyNode.otherNode, PyNode.otherNode,
       PyNode.otherNode, PyNode.nameRef ['x'], PyNode.otherNode, PyNode.otherNode,
       PyNode.otherNode, PyNode.nameRef ['x'], PyNode.otherNode, PyNode.otherNode]).card = 1 from by decide]
    norm_num
  have hel : end_line_match "x = 1".toList
      (lastN 3 (splitlines "x = 1\nx = 1\nx = 1\nx = 1\nx = 1".toList)) = 0 := by
    rw [end_line_match, hlt]
    rw [show lastN 3 (splitlines "x = 1\nx = 1\nx = 1\nx = 1\nx = 1".toList) =
      ["x = 1".toList, "x = 1".toList, "x = 1".toList] from by decide]
    norm_num [elmGo]
  have hsc : calculate_matching_scores
      ⟨fun q =>
      if q.length = 5 then
        some [PyNode.module, PyNode.otherNode, PyNode.nameRef ['x'], PyNode.otherNode,
       PyNode.otherNode]
      else
        some [PyNode.module,
       PyNode.otherNode, PyNode.nameRef ['x'], PyNode.otherNode, PyNode.otherNode,
       PyNode.otherNode, PyNode.nameRef ['x'], PyNode.otherNode, PyNode.otherNode,
       PyNode.otherNode, PyNode.nameRef ['x'], PyNode.otherNode, PyNode.otherNode,
       PyNode.otherNode, PyNode.nameRef ['x'], PyNode.otherNode, PyNode.otherNode,
       PyNode.otherNode, PyNode.nameRef ['x'], PyNode.otherNode, PyNode.otherNode]⟩
      "x = 1".toList "x = 1\nx = 1\nx = 1\nx = 1\nx = 1".toList = ⟨1, 1, 21/5, 1, 0⟩ := by
    rw [calculate_matching_scores, hfl, hsm, hast, hkw, hel]
  rw [hsc]
  refine ⟨rfl, by norm_num, ?_, ?_⟩
  · rw [calculate_confidence_score]
    norm_num
  · rw [calculate_confidence_score]
    norm_num

/-- **C8**.  For every non-empty snippet occurring verbatim as a
substring of the target, the `string_similarity` signal equals `1.0`
and the weighted confidence is strictly greater than the `0.3` discard
threshold (it is at least `0.44`, since the snippet's trimmed first
line then also occurs in some target line, making `first_line ≥ 0.8`). -/
theorem C8_verbatim_confidence (env : PyEnv) (t s : Str)
    (hs : s ≠ []) (hinf : s <:+: t) :
    (calculate_matching_scores env t s).string_match = 1 ∧
    3/10 < calculate_confidence_score
      (calculate_matching_scores env t s) := by
  have hsm : string_similarity t s = 1 := by
    rw [string_similarity, if_pos hinf]
  have hfl : 4/5 ≤ first_line_match t (strip ((splitlines s).headI)) := by
    obtain ⟨l, hl, hwl⟩ := firstLineInfix hs hinf
    rw [first_line_match]
    exact flmGo_ge _ _ ⟨l, hl, hwl⟩
  have hflb := first_line_match_bounds t (strip ((splitlines s).headI))
  have hel := (end_line_match_bounds t (lastN 3 (splitlines s))).1
  have hkw := (keyword_match_bounds env t s).1
  have hast := ast_similarity_nonneg env t s
  simp only [calculate_matching_scores, calculate_confidence_score]
  refine ⟨hsm, ?_⟩
  rw [hsm]
  linarith

theorem C8_witness :
    (calculate_matching_scores ⟨fun _ => none⟩ "q = 0\nx = 1\ny = 2".toList
      "x = 1\ny = 2".toList).string_match = 1 ∧
    3/10 < calculate_confidence_score
      (calculate_matching_scores ⟨fun _ => none⟩
        "q = 0\nx = 1\ny = 2".toList "x = 1\ny = 2".toList) :=
  C8_verbatim_confidence ⟨fun _ => none⟩ _ _ (by decide) (by decide)

/-! ## Claims about `_find_best_match` -/

theorem foldlInv {α β : Type} (P : β → Prop) (step : β → α → β)
    (hstep : ∀ acc x, P acc → P (step acc x)) :
    ∀ (l : List α) (init : β), P init → P (l.foldl step init) := by
  intro l
  induction l with
  | nil => exact fun init h => h
  | cons x xs ih => exact fun init h => ih _ (hstep init x h)

theorem foldlFix {α β : Type} (step : β → α → β) :
    ∀ (l : List α) (init : β), (∀ x ∈ l, ∀ acc, step acc x = acc) →
      l.foldl step init = init := by
  intro l
  induction l with
  | nil => intro init _; rfl
  | cons x xs ih =>
    intro init h
    rw [List.foldl_cons, h x (List.mem_cons_self x xs)]
    exact ih init (fun y hy acc => h y (List.mem_cons_of_mem x hy) acc)

theorem fbmScore_ge_one (tl sl : List Str) (elq : ℚ) (i : Nat)
    (helq : 0 ≤ elq) : 1 ≤ fbmScore tl sl elq i := by
  rw [fbmScore]
  have : (0:ℚ) ≤ ((List.range' 1 (min sl.length (tl.length - i) - 1)).countP
      (fun j => decide (strip (sl.getD j []) <:+:
        strip (tl.getD (i + j) []))) : ℚ) := by positivity
  linarith

theorem fbmStep_inv (tl sl : List Str) (fl : Str) (elq : ℚ)
    (helq : 0 ≤ elq) (acc : ℚ × Int × Int) (i : Nat)
    (h : FbmInv sl acc) : FbmInv sl (fbmStep tl sl fl elq acc i) := by
  rw [fbmStep]
  by_cases hc : fl <:+: strip (tl.getD i [])
  · rw [if_pos hc]
    by_cases hlt : acc.1 < fbmScore tl sl elq i
    · simp only [if_pos hlt]
      exact Or.inr ⟨fbmScore_ge_one tl sl elq i helq, i, rfl⟩
    · simp only [if_neg hlt]
      exact h
  · rw [if_neg hc]
    exact h

theorem fbmStep_pos (tl sl : List Str) (fl : Str) (elq : ℚ)
    (helq : 0 ≤ elq) (acc : ℚ × Int × Int) (i : Nat)
    (h : 1 ≤ acc.1) : 1 ≤ (fbmStep tl sl fl elq acc i).1 := by
  rw [fbmStep]
  by_cases hc : fl <:+: strip (tl.getD i [])
  · rw [if_pos hc]
    by_cases hlt : acc.1 < fbmScore tl sl elq i
    · simp only [if_pos hlt]
      exact fbmScore_ge_one tl sl elq i helq
    · simpa only [if_neg hlt] using h
  · rwa [if_neg hc]

theorem fbmStep_hit (tl sl : List Str) (fl : Str) (elq : ℚ)
    (helq : 0 ≤ elq) (acc : ℚ × Int × Int) (i : Nat)
    (hc : fl <:+: strip (tl.getD i [])) :
    1 ≤ (fbmStep tl sl fl elq acc i).1 := by
  rw [fbmStep, if_pos hc]
  by_cases hlt : acc.1 < fbmScore tl sl elq i
  · simp only [if_pos hlt]
    exact fbmScore_ge_one tl sl elq i helq
  · simp only [if_neg hlt]
    linarith [fbmScore_ge_one tl sl elq i helq]

/-- **C6**.  If the snippet has at least one line then `_find_best_match`
returns 1-based bounds with `1 ≤ start ≤ end` whenever the snippet's
trimmed first line occurs as a substring of some target line, and
returns exactly `(-1, -1)` whenever it occurs in no target line. -/
theorem C6_find_best_match_bounds (t s : Str)
    (hs : splitlines s ≠ []) :
    ((∃ l ∈ splitlines t, strip ((splitlines s).headI) <:+: l) →
      1 ≤ (find_best_match t s).1 ∧
      (find_best_match t s).1 ≤ (find_best_match t s).2) ∧
    ((∀ l ∈ splitlines t, ¬ strip ((splitlines s).headI) <:+: l) →
      find_best_match t s = (-1, -1)) := by
  have helq : 0 ≤ end_line_match t (lastN 3 (splitlines s)) :=
    (end_line_match_bounds t (lastN 3 (splitlines s))).1
  have hlen : 0 < (splitlines s).length := List.length_pos.mpr hs
  constructor
  · intro hex
    obtain ⟨l, hl, hwl⟩ := hex
    obtain ⟨i0, hi0, hget⟩ := List.mem_iff_getElem.mp hl
    have hcond : strip ((splitlines s).headI) <:+:
        strip ((splitlines t).getD i0 []) := by
      rw [List.getD_eq_getElem _ _ hi0, hget]
      exact (stripInfixStripIff _ _).mp hwl
    have hmem : i0 ∈ List.range (splitlines t).length :=
      List.mem_range.mpr hi0
    obtain ⟨l1, l2, hsplit⟩ := List.append_of_mem hmem
    have hfinal : FbmInv (splitlines s)
        ((List.range (splitlines t).length).foldl
          (fbmStep (splitlines t) (splitlines s)
            (strip ((splitlines s).headI))
            (end_line_match t (lastN 3 (splitlines s)))) (0, -1, -1)) ∧
        1 ≤ ((List.range (splitlines t).length).foldl
          (fbmStep (splitlines t) (splitlines s)
            (strip ((splitlines s).headI))
            (end_line_match t (lastN 3 (splitlines s)))) (0, -1, -1)).1 := by
      rw [hsplit, List.foldl_append, List.foldl_cons]
      constructor
      · apply foldlInv _ _
          (fun acc x h => fbmStep_inv _ _ _ _ helq acc x h)
        apply fbmStep_inv _ _ _ _ helq
        apply foldlInv _ _
          (fun acc x h => fbmStep_inv _ _ _ _ helq acc x h)
        exact Or.inl rfl
      · apply foldlInv (fun acc => 1 ≤ acc.1) _
          (fun acc x h => fbmStep_pos _ _ _ _ helq acc x h)
        exact fbmStep_hit _ _ _ _ helq _ i0 hcond
    rcases hfinal.1 with hinit | ⟨_, i, hi⟩
    · rw [hinit] at hfinal
      norm_num at hfinal
    · have hfbm : find_best_match t s =
          ((List.range (splitlines t).length).foldl
            (fbmStep (splitlines t) (splitlines s)
              (strip ((splitlines s).headI))
              (end_line_match t (lastN 3 (splitlines s)))) (0, -1, -1)).2 :=
        rfl
      rw [hfbm, hi]
      have h1 : (1:Int) ≤ (splitlines s).length := by exact_mod_cast hlen
      constructor
      · simp
      · simp only
        omega
  · intro hall
    have hfbm : find_best_match t s =
        ((List.range (splitlines t).length).foldl
          (fbmStep (splitlines t) (splitlines s)
            (strip ((splitlines s).headI))
            (end_line_match t (lastN 3 (splitlines s)))) (0, -1, -1)).2 :=
      rfl
    rw [hfbm, foldlFix]
    intro x hx acc
    rw [fbmStep, if_neg]
    intro hcon
    have hxlen : x < (splitlines t).length := List.mem_range.mp hx
    have hmem : (splitlines t).getD x [] ∈ splitlines t := by
      rw [List.getD_eq_getElem _ _ hxlen]
      exact List.getElem_mem hxlen
    exact hall _ hmem (hcon.trans (strip_infix_self _))

theorem C6_witness :
    1 ≤ (find_best_match "b\na".toList "a".toList).1 ∧
    (find_best_match "b\na".toList "a".toList).1 ≤
      (find_best_match "b\na".toList "a".toList).2 :=
  (C6_find_best_match_bounds "b\na".toList "a".toList (by decide)).1
    ⟨"a".toList, by decide, by decide⟩

/-! ## Claims about `check_folder_for_snippet` ranking -/

theorem insertDesc_perm (x : Placement) (l : List Placement) :
    (insertDesc x l).Perm (x :: l) := by
  induction l with
  | nil => exact List.Perm.refl _
  | cons y ys ih =>
    rw [insertDesc]
    by_cases h : y.conf < x.conf
    · rw [if_pos h]
    · rw [if_neg h]
      exact (List.Perm.cons y ih).trans (List.Perm.swap x y ys)

theorem insertDesc_sorted (x : Placement) (l : List Placement)
    (h : l.Pairwise (fun a b => b.conf ≤ a.conf)) :
    (insertDesc x l).Pairwise (fun a b => b.conf ≤ a.conf) := by
  induction l with
  | nil => simp [insertDesc]
  | cons y ys ih =>
    rcases List.pairwise_cons.mp h with ⟨hy, hys⟩
    rw [insertDesc]
    by_cases hlt : y.conf < x.conf
    · rw [if_pos hlt]
      refine List.pairwise_cons.mpr ⟨?_, h⟩
      intro z hz
      rcases List.mem_cons.mp hz with rfl | hzys
      · exact le_of_lt hlt
      · exact le_trans (hy z hzys) (le_of_lt hlt)
    · rw [if_neg hlt]
      refine List.pairwise_cons.mpr ⟨?_, ih hys⟩
      intro z hz
      have hz2 : z ∈ x :: ys := (insertDesc_perm x ys).mem_iff.mp hz
      rcases List.mem_cons.mp hz2 with rfl | hzys
      · exact le_of_not_lt hlt
      · exact hy z hzys

theorem insertDesc_filter (c : ℚ) (x : Placement) (l : List Placement)
    (h : l.Pairwise (fun a b => b.conf ≤ a.conf)) :
    (insertDesc x l).filter (fun p => decide (p.conf = c)) =
      l.filter (fun p => decide (p.conf = c)) ++
        (if x.conf = c then [x] else []) := by
  induction l with
  | nil =>
    rw [insertDesc]
    by_cases hx : x.conf = c <;> simp [List.filter, hx]
  | cons y ys ih =>
    rcases List.pairwise_cons.mp h with ⟨hy, hys⟩
    rw [insertDesc]
    by_cases hlt : y.conf < x.conf
    · rw [if_pos hlt]
      by_cases hx : x.conf = c
      · have hnil : (y :: ys).filter (fun p => decide (p.conf = c)) = [] := by
          rw [List.filter_eq_nil_iff]
          intro z hz
          rcases List.mem_cons.mp hz with rfl | hzys
          · simp only [decide_eq_true_eq]
            intro hzc
            rw [hzc] at hlt
            rw [hx] at hlt
            exact lt_irrefl c hlt
          · simp only [decide_eq_true_eq]
            intro hzc
            have h1 := hy z hzys
            rw [hzc] at h1
            have h2 : y.conf < c := by rw [← hx]; exact hlt
            exact absurd (lt_of_le_of_lt h1 h2) (lt_irrefl c)
        rw [List.filter_cons, if_pos (by simpa using hx), hnil]
        simp [hx]
      · rw [List.filter_cons, if_neg (by simpa using hx)]
        simp [hx]
    · rw [if_neg hlt]
      rw [List.filter_cons, List.filter_cons]
      by_cases hyc : y.conf = c
      · rw [if_pos (by simpa using hyc), if_pos (by simpa using hyc)]
        rw [ih hys, List.cons_append]
      · rw [if_neg (by simpa using hyc), if_neg (by simpa using hyc)]
        exact ih hys

theorem sortAux_sorted (l : List Placement) (acc : List Placement)
    (hacc : acc.Pairwise (fun a b => b.conf ≤ a.conf)) :
    (l.foldl (fun a x => insertDesc x a) acc).Pairwise
      (fun a b => b.conf ≤ a.conf) :=
  foldlInv _ _ (fun a x h => insertDesc_sorted x a h) l acc hacc

theorem sortAux_perm (l : List Placement) :
    ∀ acc, (l.foldl (fun a x => insertDesc x a) acc).Perm (l ++ acc) := by
  induction l with
  | nil => exact fun acc => List.Perm.refl _
  | cons x xs ih =>
    intro acc
    rw [List.foldl_cons]
    refine (ih (insertDesc x acc)).trans ?_
    refine (List.Perm.append_left xs (insertDesc_perm x acc)).trans ?_
    exact List.perm_middle

theorem sortAux_filter (c : ℚ) (l : List Placement) :
    ∀ acc, acc.Pairwise (fun a b => b.conf ≤ a.conf) →
      (l.foldl (fun a x => insertDesc x a) acc).filter
        (fun p => decide (p.conf = c)) =
      acc.filter (fun p => decide (p.conf = c)) ++
        l.filter (fun p => decide (p.conf = c)) := by
  induction l with
  | nil => intro acc _; simp
  | cons x xs ih =>
    intro acc hacc
    rw [List.foldl_cons]
    rw [ih (insertDesc x acc) (insertDesc_sorted x acc hacc)]
    rw [insertDesc_filter c x acc hacc]
    rw [List.filter_cons, List.append_assoc]
    by_cases hx : x.conf = c
    · rw [if_pos hx, if_pos (by simpa using hx)]
      rfl
    · rw [if_neg hx, if_neg (by simpa using hx)]
      rfl

theorem sortByConfDesc_sorted (l : List Placement) :
    (sortByConfDesc l).Pairwise (fun a b => b.conf ≤ a.conf) :=
  sortAux_sorted l [] (List.Pairwise.nil)

theorem sortByConfDesc_perm (l : List Placement) :
    (sortByConfDesc l).Perm l := by
  have := sortAux_perm l []
  simpa [sortByConfDesc] using this

theorem sortByConfDesc_filter (c : ℚ) (l : List Placement) :
    (sortByConfDesc l).filter (fun p => decide (p.conf = c)) =
      l.filter (fun p => decide (p.conf = c)) := by
  have := sortAux_filter c l [] (List.Pairwise.nil)
  simpa [sortByConfDesc] using this

theorem processFile_some {env : PyEnv} {snippet path : Str}
    {content : Option Str} {p : Placement}
    (h : processFile env snippet path content = some p) :
    3/10 < p.conf ∧ p.start_line ≠ -1 := by
  rw [processFile.eq_def] at h
  split at h
  · exact absurd h (by simp)
  · split at h
    · exact absurd h (by simp)
    · simp only at h
      split at h
      · next hconf =>
        split at h
        · next hms =>
          cases h
          exact ⟨hconf, hms⟩
        · exact absurd h (by simp)
      · exact absurd h (by simp)

theorem filter_take_isPrefix {α : Type} (P : α → Bool) (n : Nat)
    (l : List α) : (l.take n).filter P <+: l.filter P :=
  ⟨(l.drop n).filter P, by rw [← List.filter_append, List.take_append_drop]⟩

theorem mem_collectPlacements {env : PyEnv} {folderPath : Str}
    {files : List FileEntry} {snippet : Str} {p : Placement}
    (h : p ∈ collectPlacements env folderPath files snippet) :
    3/10 < p.conf ∧ p.start_line ≠ -1 := by
  rw [collectPlacements] at h
  obtain ⟨f, _, hf⟩ := List.mem_filterMap.mp h
  exact processFile_some hf

/-- **C7**.  Whenever `check_folder_for_snippet` returns a list of
placements: it has at most 2 elements; every element has confidence
strictly above `0.3` and `start_line ≠ -1`; the list is sorted by
non-increasing confidence; and for each confidence value the returned
elements form a prefix of the collected placements with that confidence
in directory-listing order (stable ties). -/
theorem C7_ranked_placements (env : PyEnv) (present : Bool)
    (files : List FileEntry) (folderPath snippet : Str)
    (l : List Placement)
    (h : check_folder_for_snippet env present files folderPath snippet =
      .ok l) :
    l.length ≤ 2 ∧
    (∀ p ∈ l, 3/10 < p.conf ∧ p.start_line ≠ -1) ∧
    l.Pairwise (fun a b => b.conf ≤ a.conf) ∧
    (∀ c : ℚ, l.filter (fun p => decide (p.conf = c)) <+:
      (collectPlacements env folderPath files snippet).filter
        (fun p => decide (p.conf = c))) := by
  rw [check_folder_for_snippet] at h
  by_cases hp : present = false
  · rw [if_pos hp] at h
    exact absurd h (by simp)
  · rw [if_neg hp] at h
    by_cases hst : strip snippet = []
    · rw [if_pos hst] at h
      exact absurd h (by simp)
    · rw [if_neg hst] at h
      cases henv : env.parse snippet with
      | none =>
        rw [henv] at h
        exact absurd h (by simp)
      | some nodes =>
        rw [henv] at h
        have hl : l = (sortByConfDesc
            (collectPlacements env folderPath files snippet)).take 2 := by
          cases h
          rfl
        subst hl
        refine ⟨?_, ?_, ?_, ?_⟩
        · exact (List.length_take_le 2 _)
        · intro p hp2
          have h1 : p ∈ sortByConfDesc
              (collectPlacements env folderPath files snippet) :=
            (List.take_sublist 2 _).mem hp2
          have h2 : p ∈ collectPlacements env folderPath files snippet :=
            (sortByConfDesc_perm _).mem_iff.mp h1
          exact mem_collectPlacements h2
        · exact List.Pairwise.sublist (List.take_sublist 2 _)
            (sortByConfDesc_sorted _)
        · intro c
          have h3 := filter_take_isPrefix
            (fun p => decide (p.conf = c)) 2
            (sortByConfDesc (collectPlacements env folderPath files snippet))
          rwa [sortByConfDesc_filter] at h3

theorem C7_witness :
    check_folder_for_snippet ⟨fun _ => some [PyNode.module]⟩ true
      [⟨"a.py".toList, some "x = 1".toList⟩] "proj".toList
      "pass".toList = .ok [] ∧
    ([] : List Placement).length ≤ 2 ∧
    (∀ p ∈ ([] : List Placement), 3/10 < p.conf ∧ p.start_line ≠ -1) := by
  have hconf : calculate_confidence_score
      (calculate_matching_scores ⟨fun _ => some [PyNode.module]⟩
        "x = 1".toList "pass".toList) = 1/5 := by
    have hfl : first_line_match "x = 1".toList
        (strip ((splitlines "pass".toList).headI)) = 0 := by
      rw [first_line_match, show splitlines "x = 1".toList =
        ["x = 1".toList] from by decide]
      rw [flmGo, if_neg (by decide), if_neg (by decide)]
      rfl
    have hsm : string_similarity "x = 1".toList "pass".toList = 0 := by
      rw [string_similarity, if_neg (by decide)]
      rw [show (tokSet "pass".toList ∩ tokSet "x = 1".toList).card = 0
        from by decide]
      norm_num
    have hast : ast_similarity ⟨fun _ => some [PyNode.module]⟩
        "x = 1".toList "pass".toList = 1 := by
      rw [ast_similarity]
      norm_num
    have hkw : keyword_match ⟨fun _ => some [PyNode.module]⟩
        "x = 1".toList "pass".toList = 0 := by
      rw [keyword_match]
      simp only
      rw [if_pos (by decide)]
    have hel : end_line_match "x = 1".toList
        (lastN 3 (splitlines "pass".toList)) = 0 := by
      rw [end_line_match, show splitlines "x = 1".toList =
        ["x = 1".toList] from by decide]
      rw [show lastN 3 (splitlines "pass".toList) = ["pass".toList]
        from by decide]
      norm_num [elmGo, elmAll, elmAny]
      decide
    rw [calculate_matching_scores, hfl, hsm, hast, hkw, hel,
      calculate_confidence_score]
    norm_num
  have hproc : processFile ⟨fun _ => some [PyNode.module]⟩ "pass".toList
      (joinPath "proj".toList "a.py".toList) (some "x = 1".toList) =
      none := by
    rw [processFile.eq_def]
    simp only
    rw [if_neg (by decide), if_neg (by rw [hconf]; norm_num)]
  have hcoll : collectPlacements ⟨fun _ => some [PyNode.module]⟩
      "proj".toList [⟨"a.py".toList, some "x = 1".toList⟩]
      "pass".toList = [] := by
    rw [collectPlacements]
    rw [show List.filter
        (fun f => decide (".py".toList <:+ f.name))
        [(⟨"a.py".toList, some "x = 1".toList⟩ : FileEntry)] =
        [⟨"a.py".toList, some "x = 1".toList⟩] from by decide]
    rw [List.filterMap, hproc]
    rfl
  have hok : check_folder_for_snippet ⟨fun _ => some [PyNode.module]⟩ true
      [⟨"a.py".toList, some "x = 1".toList⟩] "proj".toList
      "pass".toList = .ok [] := by
    rw [check_folder_for_snippet, if_neg (by simp), if_neg (by decide)]
    simp only
    rw [hcoll]
    rfl
  exact ⟨hok,
    (C7_ranked_placements _ _ _ _ _ [] hok).1,
    (C7_ranked_placements _ _ _ _ _ [] hok).2.1⟩
